import Mathlib

/-!
Shallow embedding, in Lean 4, of the rfc2md document converters:

* `src/lib/converter.py`   — class `XmlToMdConverter` (RFC XML v3 → Markdown);
* `src/lib/html_converter.py` — class `HtmlToMdConverter` (legacy RFC HTML → Markdown).

Python strings are modelled as Lean `String`s, `None`-able values as `Option`,
Python `list` accumulation as Lean `List` concatenation (the converters only
ever append to `self.markdown_lines`, so a renderer is modelled as the list of
lines it appends), dictionaries as functions `String → Option String` updated
by overriding, and the exceptions raised by the code (`ValueError`) as
`Except PyErr`.  Each Lean definition mirrors one Python function or method;
the corresponding source location is given in its doc comment.
-/

namespace Rfc2Md

/-- Python whitespace (the ASCII set recognised by `str.strip`, `str.rstrip`
and the regex class `\s`; the converters' inputs only meet ASCII whitespace). -/
def isPyWs (c : Char) : Bool :=
  c = ' ' || c = '\t' || c = '\n' || c = '\r' || c = Char.ofNat 11 || c = Char.ofNat 12

/-- Python `s.rstrip()`: drop trailing whitespace. -/
def pyRstrip (s : String) : String :=
  String.mk ((s.data.reverse.dropWhile isPyWs).reverse)

/-- Python `s.strip()`: drop leading and trailing whitespace. -/
def pyStrip (s : String) : String :=
  String.mk (((s.data.dropWhile isPyWs).reverse.dropWhile isPyWs).reverse)

/-- Python `text.split("\n")` on the character list: split at every newline;
the empty text yields one empty piece, mirroring `"".split("\n") == [""]`. -/
def splitChars : List Char → List (List Char)
  | [] => [[]]
  | c :: cs =>
    if c = '\n' then [] :: splitChars cs
    else
      match splitChars cs with
      | [] => [[c]]
      | h :: t => (c :: h) :: t

/-- Python `"\n".join` on character lists. -/
def joinChars : List (List Char) → List Char
  | [] => []
  | [l] => l
  | l :: l' :: t => l ++ '\n' :: joinChars (l' :: t)

/-- Python `text.split("\n")` producing the list of lines of a string. -/
def pySplitNl (s : String) : List String :=
  (splitChars s.data).map String.mk

/-- Python `"\n".join(lines)`. -/
def joinNlStr (ls : List String) : String :=
  String.mk (joinChars (ls.map String.data))

/-- Whether `pat` occurs at the start of `cs`. -/
def prefixOccurs : List Char → List Char → Bool
  | [], _ => true
  | _ :: _, [] => false
  | a :: as, b :: bs => a == b && prefixOccurs as bs

/-- Whether `pat` occurs somewhere in `cs` (substring test). -/
def subOccurs : List Char → List Char → Bool
  | [], pat => prefixOccurs pat []
  | c :: cs, pat => prefixOccurs pat (c :: cs) || subOccurs cs pat

/-- Substring test on strings (Python `pat in s`). -/
def strContains (s pat : String) : Bool :=
  subOccurs s.data pat.data

/-! ### `HtmlToMdConverter._normalize_text`  (src/lib/html_converter.py lines 454–495)

The method takes an unused `preserve_code_blocks` flag (never read in the
body), right-strips every line, replaces whitespace-only lines by the empty
line, and then removes consecutive empty lines, keeping the first of each run.
-/

/-- One line of `_normalize_text`'s first loop: `line = line.rstrip()`;
whitespace-only lines become `""`, others are kept right-stripped. -/
def normLine (l : String) : String :=
  let r := pyRstrip l
  if pyStrip r = "" then "" else r

/-- The second loop of `_normalize_text`: drop an empty line when the
previously emitted line was already empty (`prev_empty` flag). -/
def collapseBlankRuns : List String → Bool → List String
  | [], _ => []
  | l :: ls, prevEmpty =>
    if pyStrip l = "" then
      if prevEmpty then collapseBlankRuns ls true
      else l :: collapseBlankRuns ls true
    else l :: collapseBlankRuns ls false

/-- `HtmlToMdConverter._normalize_text` (the `preserve_code_blocks` argument is
dead in the source and omitted here). -/
def normalizeText (s : String) : String :=
  if s = "" then ""
  else joinNlStr (collapseBlankRuns ((pySplitNl s).map normLine) false)

/-! #### Support lemmas for `normalizeText` -/

theorem dropWhile_dropWhile (p : Char → Bool) (l : List Char) :
    (l.dropWhile p).dropWhile p = l.dropWhile p := by
  induction l with
  | nil => rfl
  | cons c cs ih =>
    by_cases h : p c
    · simp [List.dropWhile, h, ih]
    · simp [List.dropWhile, h]

theorem data_mk (cs : List Char) : (String.mk cs).data = cs := rfl

theorem mk_data (s : String) : String.mk s.data = s := rfl

theorem pyRstrip_idem (s : String) : pyRstrip (pyRstrip s) = pyRstrip s := by
  simp [pyRstrip, data_mk, List.reverse_reverse, dropWhile_dropWhile]

theorem pyRstrip_sub (s : String) (c : Char) (h : c ∈ (pyRstrip s).data) :
    c ∈ s.data := by
  simp only [pyRstrip, data_mk, List.mem_reverse] at h ⊢
  exact List.mem_reverse.mp ((List.dropWhile_sublist _).mem h)

theorem pyStrip_empty : pyStrip "" = "" := rfl

theorem pyRstrip_empty : pyRstrip "" = "" := rfl

theorem normLine_idem (l : String) : normLine (normLine l) = normLine l := by
  unfold normLine
  by_cases h : pyStrip (pyRstrip l) = ""
  · simp [h, pyRstrip_empty, pyStrip_empty]
  · simp only [if_neg h]
    rw [pyRstrip_idem]
    simp [if_neg h]

theorem splitChars_ne_nil (cs : List Char) : splitChars cs ≠ [] := by
  induction cs with
  | nil => simp [splitChars]
  | cons c cs ih =>
    by_cases h : c = '\n'
    · simp [splitChars, h]
    · simp only [splitChars, if_neg h]
      cases hs : splitChars cs with
      | nil => simp
      | cons h t => simp

theorem splitChars_no_nl (cs : List Char) :
    ∀ l ∈ splitChars cs, '\n' ∉ l := by
  induction cs with
  | nil =>
    intro l hl
    simp [splitChars] at hl
    simp [hl]
  | cons c cs ih =>
    intro l hl
    by_cases h : c = '\n'
    · simp [splitChars, h] at hl
      rcases hl with hl | hl
      · simp [hl]
      · exact ih l hl
    · simp only [splitChars, if_neg h] at hl
      cases hs : splitChars cs with
      | nil => exact absurd hs (splitChars_ne_nil cs)
      | cons hd t =>
        rw [hs] at hl
        simp at hl
        rcases hl with hl | hl
        · subst hl
          intro hmem
          rcases List.mem_cons.mp hmem with hc | hc
          · exact h hc.symm
          · exact ih hd (by simp [hs]) hc
        · exact ih l (by simp [hs, hl])

theorem splitChars_of_no_nl (l : List Char) (h : '\n' ∉ l) :
    splitChars l = [l] := by
  induction l with
  | nil => rfl
  | cons c cs ih =>
    have hc : ¬ c = '\n' := fun hc => h (by simp [hc])
    have hcs : '\n' ∉ cs := fun hm => h (by simp [hm])
    simp [splitChars, hc, ih hcs]

theorem splitChars_append_nl (l cs : List Char) (h : '\n' ∉ l) :
    splitChars (l ++ '\n' :: cs) = l :: splitChars cs := by
  induction l with
  | nil => simp [splitChars]
  | cons c t ih =>
    have hc : ¬ c = '\n' := fun hc => h (by simp [hc])
    have ht : '\n' ∉ t := fun hm => h (by simp [hm])
    simp only [List.cons_append, splitChars, if_neg hc]
    rw [show t.append ('\n' :: cs) = t ++ '\n' :: cs from rfl, ih ht]

theorem splitChars_joinChars (lls : List (List Char)) (hne : lls ≠ [])
    (h : ∀ l ∈ lls, '\n' ∉ l) : splitChars (joinChars lls) = lls := by
  induction lls with
  | nil => exact absurd rfl hne
  | cons l t ih =>
    cases t with
    | nil =>
      simp only [joinChars]
      exact splitChars_of_no_nl l (h l (by simp))
    | cons l' t' =>
      simp only [joinChars]
      rw [splitChars_append_nl l _ (h l (by simp))]
      rw [ih (by simp) (fun x hx => h x (by simp [hx]))]

/-- Lines produced by `collapseBlankRuns` come from its input. -/
theorem collapseBlankRuns_mem (ls : List String) (b : Bool) :
    ∀ x ∈ collapseBlankRuns ls b, x ∈ ls := by
  induction ls generalizing b with
  | nil => simp [collapseBlankRuns]
  | cons l t ih =>
    intro x hx
    by_cases hb : pyStrip l = ""
    · simp only [collapseBlankRuns, if_pos hb] at hx
      by_cases hpe : b
      · simp only [if_pos hpe] at hx
        exact List.mem_cons_of_mem _ (ih true x hx)
      · simp only [if_neg hpe] at hx
        rcases List.mem_cons.mp hx with h | h
        · simp [h]
        · exact List.mem_cons_of_mem _ (ih true x h)
    · simp only [collapseBlankRuns, if_neg hb] at hx
      rcases List.mem_cons.mp hx with h | h
      · simp [h]
      · exact List.mem_cons_of_mem _ (ih false x h)

/-- No two consecutive blank lines (as tested by the `prev_empty` flag). -/
def noTwoBlanks : List String → Bool
  | a :: b :: t => !(pyStrip a = "" && pyStrip b = "") && noTwoBlanks (b :: t)
  | _ => true

/-- Whether a list starts with a blank line. -/
def headBlank : List String → Bool
  | [] => false
  | x :: _ => pyStrip x = ""

theorem collapseBlankRuns_sound (ls : List String) :
    (noTwoBlanks (collapseBlankRuns ls false)
      ∧ noTwoBlanks (collapseBlankRuns ls true))
      ∧ headBlank (collapseBlankRuns ls true) = false := by
  induction ls with
  | nil => simp [collapseBlankRuns, noTwoBlanks, headBlank]
  | cons l t ih =>
    by_cases hb : pyStrip l = ""
    · refine ⟨⟨?_, ?_⟩, ?_⟩
      · simp only [collapseBlankRuns, if_pos hb, if_neg (by simp : ¬ (false = true))]
        cases hc : collapseBlankRuns t true with
        | nil => simp [noTwoBlanks]
        | cons y ys =>
          have hy : headBlank (y :: ys) = false := by rw [← hc]; exact ih.2
          simp only [headBlank] at hy
          simp only [noTwoBlanks, hc]
          rw [Bool.and_eq_true]
          refine ⟨by simp [hb, hy], ?_⟩
          rw [← hc]; exact ih.1.2
      · simp only [collapseBlankRuns, if_pos hb, if_pos rfl]
        exact ih.1.2
      · simp only [collapseBlankRuns, if_pos hb, if_pos rfl]
        exact ih.2
    · refine ⟨⟨?_, ?_⟩, ?_⟩
      · simp only [collapseBlankRuns, if_neg hb]
        cases hc : collapseBlankRuns t false with
        | nil => simp [noTwoBlanks]
        | cons y ys =>
          simp only [noTwoBlanks]
          rw [Bool.and_eq_true]
          refine ⟨by simp [hb], ?_⟩
          rw [← hc]; exact ih.1.1
      · simp only [collapseBlankRuns, if_neg hb]
        cases hc : collapseBlankRuns t false with
        | nil => simp [noTwoBlanks]
        | cons y ys =>
          simp only [noTwoBlanks]
          rw [Bool.and_eq_true]
          refine ⟨by simp [hb], ?_⟩
          rw [← hc]; exact ih.1.1
      · show headBlank (collapseBlankRuns (l :: t) true) = false
        have : collapseBlankRuns (l :: t) true = l :: collapseBlankRuns t false := by
          simp [collapseBlankRuns, hb]
        rw [this]
        simp [headBlank, hb]

theorem collapseBlankRuns_id (ls : List String) (h : noTwoBlanks ls = true) :
    collapseBlankRuns ls false = ls := by
  induction ls with
  | nil => rfl
  | cons l t ih =>
    by_cases hb : pyStrip l = ""
    · simp only [collapseBlankRuns, if_pos hb, if_neg (by simp : ¬ (false = true))]
      cases t with
      | nil => rfl
      | cons l' t' =>
        simp only [noTwoBlanks, hb, Bool.and_eq_true, Bool.not_eq_true',
          decide_eq_true_eq] at h
        have hl' : ¬ pyStrip l' = "" := by
          rcases h with ⟨h1, _⟩
          simp [hb] at h1
          exact h1
        have : collapseBlankRuns (l' :: t') true = collapseBlankRuns (l' :: t') false := by
          simp [collapseBlankRuns, hl']
        rw [this, ih]
        cases t' with
        | nil => simp [noTwoBlanks]
        | cons a b =>
          simp only [noTwoBlanks, Bool.and_eq_true] at h ⊢
          exact h.2
    · simp only [collapseBlankRuns, if_neg hb]
      rw [ih]
      cases t with
      | nil => simp [noTwoBlanks]
      | cons a b =>
        simp only [noTwoBlanks, Bool.and_eq_true] at h ⊢
        exact h.2

theorem collapseBlankRuns_ne_nil (l : String) (ls : List String) :
    collapseBlankRuns (l :: ls) false ≠ [] := by
  by_cases hb : pyStrip l = "" <;> simp [collapseBlankRuns, hb]

theorem map_eq_self_of_fixed {α : Type} (f : α → α) (l : List α)
    (h : ∀ x ∈ l, f x = x) : l.map f = l := by
  induction l with
  | nil => rfl
  | cons a t ih =>
    simp only [List.map_cons]
    rw [h a (by simp), ih (fun x hx => h x (by simp [hx]))]

theorem normLine_no_nl (l : String) (h : '\n' ∉ l.data) :
    '\n' ∉ (normLine l).data := by
  unfold normLine
  by_cases hb : pyStrip (pyRstrip l) = ""
  · simp [hb]
  · simp only [if_neg hb]
    exact fun hm => h (pyRstrip_sub l '\n' hm)

/-- `joinNlStr` of a list of newline-free lines is empty only for `[]` or `[""]`. -/
theorem joinNlStr_eq_empty (ls : List String) (h : joinNlStr ls = "") :
    ls = [] ∨ ls = [""] := by
  cases ls with
  | nil => exact Or.inl rfl
  | cons l t =>
    cases t with
    | nil =>
      right
      simp only [joinNlStr, List.map_cons, List.map_nil, joinChars] at h
      have hd : l.data = ([] : List Char) := by
        have := congrArg String.data h
        simpa [data_mk] using this
      have hl : l = "" := by
        have := congrArg String.mk hd
        simpa [mk_data] using this
      simp [hl]
    | cons l' t' =>
      exfalso
      have hd := congrArg String.data h
      simp only [joinNlStr, data_mk, List.map_cons, joinChars] at hd
      have : '\n' ∈ (l.data ++ '\n' :: joinChars (l'.data :: t'.map String.data)) := by
        simp
      rw [hd] at this
      simp at this

theorem pySplitNl_joinNlStr (ls : List String) (hne : ls ≠ [])
    (h : ∀ l ∈ ls, '\n' ∉ l.data) : pySplitNl (joinNlStr ls) = ls := by
  unfold pySplitNl joinNlStr
  rw [data_mk, splitChars_joinChars]
  · rw [List.map_map]
    exact map_eq_self_of_fixed _ _ (fun x _ => rfl)
  · simpa using hne
  · intro l hl
    rcases List.mem_map.mp hl with ⟨s, hs, rfl⟩
    exact h s hs

theorem pySplitNl_ne_nil (s : String) : pySplitNl s ≠ [] := by
  unfold pySplitNl
  intro h
  exact splitChars_ne_nil s.data (by simpa using h)

theorem pySplitNl_no_nl (s : String) : ∀ l ∈ pySplitNl s, '\n' ∉ l.data := by
  intro l hl
  rcases List.mem_map.mp hl with ⟨cs, hcs, rfl⟩
  rw [data_mk]
  exact splitChars_no_nl s.data cs hcs

theorem normalizeText_core_props (s : String) :
    let core := collapseBlankRuns ((pySplitNl s).map normLine) false
    core ≠ [] ∧ (∀ x ∈ core, normLine x = x) ∧ (∀ x ∈ core, '\n' ∉ x.data)
      ∧ noTwoBlanks core = true := by
  intro core
  have hmem : ∀ x ∈ core, x ∈ (pySplitNl s).map normLine :=
    collapseBlankRuns_mem _ _
  refine ⟨?_, ?_, ?_, ?_⟩
  · cases hsp : (pySplitNl s).map normLine with
    | nil =>
      exact absurd (List.map_eq_nil_iff.mp hsp) (pySplitNl_ne_nil s)
    | cons a t =>
      show collapseBlankRuns ((pySplitNl s).map normLine) false ≠ []
      rw [hsp]
      exact collapseBlankRuns_ne_nil a t
  · intro x hx
    rcases List.mem_map.mp (hmem x hx) with ⟨y, _, rfl⟩
    exact normLine_idem y
  · intro x hx
    rcases List.mem_map.mp (hmem x hx) with ⟨y, hy, rfl⟩
    exact normLine_no_nl y (pySplitNl_no_nl s y hy)
  · exact (collapseBlankRuns_sound _).1.1

/-- C9: the blank-line collapsing pass `_normalize_text` is idempotent: for
every input text `x`, `collapse(collapse(x)) == collapse(x)`; runs of three or
more consecutive newlines between content lines are reduced to exactly two by
the first application, and a second application changes nothing. -/
theorem C9_collapse_idempotent (s : String) :
    normalizeText (normalizeText s) = normalizeText s := by
  by_cases hs : s = ""
  · simp [hs, normalizeText]
  · have hcore := normalizeText_core_props s
    simp only at hcore
    obtain ⟨hne, hfix, hnl, htwo⟩ := hcore
    have hout : normalizeText s
        = joinNlStr (collapseBlankRuns ((pySplitNl s).map normLine) false) := by
      simp [normalizeText, hs]
    set core := collapseBlankRuns ((pySplitNl s).map normLine) false with hcdef
    by_cases hT : joinNlStr core = ""
    · rw [hout, hT]
      simp [normalizeText]
    · rw [hout]
      have : normalizeText (joinNlStr core)
          = joinNlStr (collapseBlankRuns ((pySplitNl (joinNlStr core)).map normLine) false) := by
        simp [normalizeText, hT]
      rw [this, pySplitNl_joinNlStr core hne hnl,
        map_eq_self_of_fixed normLine core hfix, collapseBlankRuns_id core htwo]

/-! ### A small regular-expression interpreter

`_remove_page_breaks` matches lines against two compiled patterns.  The
patterns are embedded as abstract syntax trees and run by a backtracking
matcher in continuation style; `star` consumes at least one character per
iteration (Python's matcher produces the same language on these patterns),
with fuel bounding the iteration count.
-/

inductive Rx where
  | eps
  | chr (c : Char)
  | cls (f : Char → Bool)
  | cat (a b : Rx)
  | alt (a b : Rx)
  | star (r : Rx)

/-- One level of the backtracking matcher, structurally recursive on the
pattern; `starK` continues a `star` iteration at the next-lower fuel level. -/
def rxMatchAux (starK : Rx → List Char → (List Char → Bool) → Bool) :
    Rx → List Char → (List Char → Bool) → Bool
  | .eps, s, k => k s
  | .chr c, s, k =>
    match s with
    | [] => false
    | c' :: rest => c' == c && k rest
  | .cls f, s, k =>
    match s with
    | [] => false
    | c' :: rest => f c' && k rest
  | .cat a b, s, k => rxMatchAux starK a s (fun rem => rxMatchAux starK b rem k)
  | .alt a b, s, k => rxMatchAux starK a s k || rxMatchAux starK b s k
  | .star r, s, k =>
    k s || rxMatchAux starK r s
      (fun rem => decide (rem.length < s.length) && starK r rem k)

/-- Backtracking matcher: `rxMatch fuel r s k` holds when some split `s = u ++ v`
has `u` in the language of `r` and `k v` true; every `star` iteration consumes
at least one character, so fuel `|s| + 1` is never exhausted. -/
def rxMatch : Nat → Rx → List Char → (List Char → Bool) → Bool
  | 0, r, s, k => rxMatchAux (fun _ _ _ => false) r s k
  | fuel + 1, r, s, k =>
    rxMatchAux (fun r' rem k' => rxMatch fuel (.star r') rem k') r s k

/-- `r+` (one or more). -/
def rxPlus (r : Rx) : Rx := .cat r (.star r)

/-- `r?` (optional). -/
def rxOpt (r : Rx) : Rx := .alt r .eps

/-- A literal string. -/
def rxStr (s : String) : Rx := s.data.foldr (fun c acc => Rx.cat (.chr c) acc) .eps

/-- `\d` (the inputs in question are ASCII). -/
def rxDigit : Rx := .cls Char.isDigit

/-- `\s`. -/
def rxWs : Rx := .cls isPyWs

/-- `.` (anything but a newline; the patterns are applied to single lines). -/
def rxAnyChar : Rx := .cls (fun c => !(c = '\n'))

/-- `\d{4}`. -/
def rxFourDigits : Rx := .cat rxDigit (.cat rxDigit (.cat rxDigit rxDigit))

/-- Anchored match `^pattern$` (`re.match` with a `$`-terminated pattern on a
stripped single line, which cannot contain a trailing newline). -/
def rxFullmatch (r : Rx) (s : String) : Bool :=
  rxMatch (s.data.length + 1) r s.data (fun rest => rest.isEmpty)

/-- `re.match` (anchored at the start only). -/
def rxMatchAtStart (r : Rx) (s : String) : Bool :=
  rxMatch (s.data.length + 1) r s.data (fun _ => true)

/-- The five category alternatives shared by both patterns. -/
def categoryRx : Rx :=
  .alt (rxStr "Standards Track")
    (.alt (rxStr "Informational")
      (.alt (rxStr "Best Current Practice")
        (.alt (rxStr "Experimental") (rxStr "Historic"))))

/-- The twelve month-name alternatives of the footer pattern. -/
def monthRx : Rx :=
  .alt (rxStr "January")
    (.alt (rxStr "February")
      (.alt (rxStr "March")
        (.alt (rxStr "April")
          (.alt (rxStr "May")
            (.alt (rxStr "June")
              (.alt (rxStr "July")
                (.alt (rxStr "August")
                  (.alt (rxStr "September")
                    (.alt (rxStr "October")
                      (.alt (rxStr "November") (rxStr "December")))))))))))

/-- `[A-Za-z,\s\.]`. -/
def headerCls : Char → Bool := fun c => c.isAlpha || c = ',' || isPyWs c || c = '.'

/-- `page_header_pattern`:
`^[A-Za-z,\s\.]+\s+(Standards Track|Informational|Best Current Practice|Experimental|Historic)\s+\[Page \d+\]$`. -/
def pageHeaderRx : Rx :=
  .cat (rxPlus (.cls headerCls))
    (.cat (rxPlus rxWs)
      (.cat categoryRx
        (.cat (rxPlus rxWs)
          (.cat (rxStr "[Page ") (.cat (rxPlus rxDigit) (.chr ']'))))))

/-- `page_footer_pattern`:
`^RFC \d+\s+.*\s+(January|…|December)\s+\d{4}$`. -/
def pageFooterRx : Rx :=
  .cat (rxStr "RFC ")
    (.cat (rxPlus rxDigit)
      (.cat (rxPlus rxWs)
        (.cat (.star rxAnyChar)
          (.cat (rxPlus rxWs) (.cat monthRx (.cat (rxPlus rxWs) rxFourDigits))))))

/-- `page_header_pattern.match(stripped_line)`. -/
def pageHeaderMatch (s : String) : Bool := rxFullmatch pageHeaderRx s

/-- `page_footer_pattern.match(stripped_line)`. -/
def pageFooterMatch (s : String) : Bool := rxFullmatch pageFooterRx s

/-- `re.search(r"[.,:;!?)\]]$", s)`: the line ends with terminal punctuation. -/
def endsTerminalPunct (s : String) : Bool :=
  match s.data.reverse with
  | [] => false
  | c :: _ => c = '.' || c = ',' || c = ':' || c = ';' || c = '!' || c = '?' || c = ')' || c = ']'

/-- `re.match(r"^\d+\.?\s", s)`: a numbered-item lead-in. -/
def numItemMatch (s : String) : Bool :=
  rxMatchAtStart (.cat (rxPlus rxDigit) (.cat (rxOpt (.chr '.')) rxWs)) s

/-- `s.startswith("#")`. -/
def startsWithHash (s : String) : Bool :=
  match s.data with
  | '#' :: _ => true
  | _ => false

/-! ### `HtmlToMdConverter._remove_page_breaks`  (src/lib/html_converter.py lines 142–220) -/

/-- The form-feed character compared against in the source's literal list
`["", "\f", "\x0c"]` (`"\f"` and `"\x0c"` denote the same character). -/
def formFeedStr : String := String.mk [Char.ofNat 12]

/-- First loop of `_remove_page_breaks`: drop page headers/footers; a
whitespace-only line is kept (as `""`) only when it is neither the first nor
the last line, the last kept line has content, and the next input line has
content and is not a page header.  `lastKept` models
`cleaned_lines[-1] if cleaned_lines else ""` and `notFirst` models `i > 0`. -/
def cleanPbLines (lastKept : String) (notFirst : Bool) : List String → List String
  | [] => []
  | line :: rest =>
    if pageHeaderMatch (pyStrip line) then cleanPbLines lastKept true rest
    else if pageFooterMatch (pyStrip line) then cleanPbLines lastKept true rest
    else if pyStrip line = "" ∨ pyStrip line = formFeedStr then
      match rest with
      | [] => cleanPbLines lastKept true rest
      | nxt :: _ =>
        if notFirst ∧ pyStrip lastKept ≠ "" ∧ pyStrip nxt ≠ ""
            ∧ ¬ pageHeaderMatch (pyStrip nxt) = true then
          "" :: cleanPbLines "" true rest
        else cleanPbLines lastKept true rest
    else line :: cleanPbLines line true rest

/-- Second loop of `_remove_page_breaks`: merge a content line lacking terminal
punctuation with its (stripped) successor unless the successor is empty, starts
with `#`, or looks like a numbered item. -/
def mergePbLines : List String → List String
  | [] => []
  | [l] => [l]
  | l :: nxt :: rest =>
    if pyStrip l ≠ "" ∧ ¬ endsTerminalPunct (pyStrip l) = true ∧ pyStrip nxt ≠ ""
        ∧ ¬ startsWithHash (pyStrip nxt) = true ∧ ¬ numItemMatch (pyStrip nxt) = true then
      (pyRstrip l ++ " " ++ pyStrip nxt) :: mergePbLines rest
    else l :: mergePbLines (nxt :: rest)

/-- `HtmlToMdConverter._remove_page_breaks`. -/
def removePageBreaks (text : String) : String :=
  joinNlStr (mergePbLines (cleanPbLines "" false (pySplitNl text)))

/-! ### `HtmlToMdConverter` document model and `convert`

The converter reads, from the parsed soup, only: the `<meta>` tags'
name/content pairs, the `<title>` tag's string, and the text content of the
`<pre>` blocks in document order.  A parsed HTML document is therefore
modelled by exactly those projections. -/

structure HtmlDoc where
  metaTags : List (String × String)
  titleString : Option String
  preBlocks : List String

/-- The everywhere-undefined dictionary. -/
def emptyDict : String → Option String := fun _ => none

/-- Dictionary update `d[k] = v`. -/
def dictInsert (m : String → Option String) (k v : String) : String → Option String :=
  fun x => if x = k then some v else m x

/-- Python errors raised by the converters (`ValueError`). -/
inductive PyErr where
  | valueError (msg : String)
deriving DecidableEq

/-- Case-insensitive literal match at the head of `s`, as performed by
`re.IGNORECASE` on an ASCII literal. -/
def ciPrefixOccurs : List Char → List Char → Bool
  | [], _ => true
  | _ :: _, [] => false
  | a :: as, b :: bs => a.toLower == b.toLower && ciPrefixOccurs as bs

/-- `re.search(r"RFC\s+(\d+)", text, re.IGNORECASE)`, returning group 1:
at a position, `RFC` (case-insensitive), at least one whitespace character,
then the maximal run of digits. -/
def rfcNumAt (s : List Char) : Option String :=
  if ciPrefixOccurs "RFC".data s then
    let rest := s.drop 3
    if (rest.takeWhile isPyWs).isEmpty then none
    else
      let rest2 := rest.dropWhile isPyWs
      let ds := rest2.takeWhile Char.isDigit
      if ds.isEmpty then none else some (String.mk ds)
  else none

def searchRfcNum : List Char → Option String
  | [] => none
  | c :: cs => (rfcNumAt (c :: cs)).orElse (fun _ => searchRfcNum cs)

/-- The five category literals, in the source pattern's alternation order. -/
def categoryLits : List String :=
  ["Standards Track", "Informational", "Best Current Practice", "Experimental", "Historic"]

/-- `re.search(r"(Standards Track|Informational|…|Historic)", text)`:
the first alternative matching at the leftmost matching position. -/
def searchCategory : List Char → Option String
  | [] => none
  | c :: cs =>
    match categoryLits.find? (fun lit => prefixOccurs lit.data (c :: cs)) with
    | some lit => some lit
    | none => searchCategory cs

/-- The twelve month literals, in the source pattern's alternation order. -/
def monthLits : List String :=
  ["January", "February", "March", "April", "May", "June", "July", "August",
   "September", "October", "November", "December"]

/-- At one position: a month literal, `\s+`, then `\d{4}`; on success the
formatted `f"{month} {year}"` of the two capture groups. -/
def dateAt (s : List Char) : Option String :=
  match monthLits.find? (fun lit => prefixOccurs lit.data s) with
  | none => none
  | some m =>
    let rest := s.drop m.data.length
    if (rest.takeWhile isPyWs).isEmpty then none
    else
      let rest2 := rest.dropWhile isPyWs
      let ys := rest2.take 4
      if ys.length = 4 ∧ ys.all Char.isDigit then
        some (m ++ " " ++ String.mk ys)
      else none

/-- `re.search` for the date pattern:
`(January|…|December)\s+(\d{4})`, leftmost match. -/
def searchDate : List Char → Option String
  | [] => none
  | c :: cs => (dateAt (c :: cs)).orElse (fun _ => searchDate cs)

/-- `HtmlToMdConverter._extract_metadata` (src/lib/html_converter.py lines
66–110): meta tags with non-empty name and content, the stripped `<title>`
string, and — from the text of the first `<pre>` block only — RFC number,
category, and date found by regex search. -/
def extractMetadata (d : HtmlDoc) : String → Option String :=
  let m1 := d.metaTags.foldl
    (fun m p => if p.1 ≠ "" ∧ p.2 ≠ "" then dictInsert m p.1 p.2 else m) emptyDict
  let m2 := match d.titleString with
    | some t => if t ≠ "" then dictInsert m1 "title" (pyStrip t) else m1
    | none => m1
  match d.preBlocks with
  | [] => m2
  | p :: _ =>
    let m3 := match searchRfcNum p.data with
      | some n => dictInsert m2 "rfc_number" n
      | none => m2
    let m4 := match searchCategory p.data with
      | some c => dictInsert m3 "category" c
      | none => m3
    match searchDate p.data with
    | some dt => dictInsert m4 "date" dt
    | none => m4

/-- The metadata header emitted at the top of `_process_document`
(src/lib/html_converter.py lines 503–517). -/
def metaLines (m : String → Option String) : List String :=
  (match m "title" with
   | some t => ["# " ++ t, ""]
   | none => [])
  ++ (match m "rfc_number" with
      | some r =>
        let info := "**RFC " ++ r ++ "**"
        let info2 := match m "category" with
          | some c => info ++ " - " ++ c
          | none => info
        [info2, ""]
      | none => [])
  ++ (match m "date" with
      | some dt => ["**Date:** " ++ dt, ""]
      | none => [])

/-- `HtmlToMdConverter._process_document` (src/lib/html_converter.py lines
497–534): metadata header, then — when any `<pre>` block exists — the text of
the **first** `<pre>` block with page breaks removed, appended as-is. -/
def processDocument (d : HtmlDoc) : List String :=
  metaLines (extractMetadata d)
  ++ (match d.preBlocks with
      | [] => []
      | p :: _ => [removePageBreaks p])

/-- `HtmlToMdConverter.convert` (src/lib/html_converter.py lines 38–64): a
read/parse failure (modelled as a `none` input) raises `ValueError`; otherwise
the document is processed and the accumulated lines are newline-joined. -/
def htmlConvert : Option HtmlDoc → Except PyErr String
  | none => .error (.valueError "Error parsing HTML")
  | some d => .ok (joinNlStr (processDocument d))

/-! ### Behaviour of `_remove_page_breaks` on content lines -/

/-- A single line (no embedded newline) that none of the deletion guards of
`_remove_page_breaks`'s first loop fires on: not whitespace-only, not a
form feed, not a page header, not a page footer. -/
def contentLine (l : String) : Prop :=
  '\n' ∉ l.data ∧ pyStrip l ≠ "" ∧ pyStrip l ≠ formFeedStr
    ∧ pageHeaderMatch (pyStrip l) = false ∧ pageFooterMatch (pyStrip l) = false

instance (l : String) : Decidable (contentLine l) := by
  unfold contentLine
  infer_instance

theorem cleanPb_content :
    ∀ (ls : List String), (∀ l ∈ ls, contentLine l) →
      ∀ lk nf, cleanPbLines lk nf ls = ls
  | [], _, _, _ => rfl
  | l :: ls, h, lk, nf => by
    obtain ⟨-, hne, hff, hhd, hft⟩ := h l (by simp)
    simp only [cleanPbLines, hhd, hft]
    rw [if_neg (by simp), if_neg (by simp), if_neg (by simp [hne, hff])]
    rw [cleanPb_content ls (fun x hx => h x (by simp [hx])) l true]

theorem cleanPb_delete :
    ∀ (pre : List String), (∀ l ∈ pre, contentLine l) →
    ∀ (post : List String), (∀ l ∈ post, contentLine l) →
    ∀ (h : String),
      pageHeaderMatch (pyStrip h) = true ∨ pageFooterMatch (pyStrip h) = true →
    ∀ lk nf, cleanPbLines lk nf (pre ++ h :: post) = pre ++ post
  | [], _, post, hpost, h, hh, lk, nf => by
    rcases hh with hh | hh
    · simp only [List.nil_append, cleanPbLines, hh, if_true]
      exact cleanPb_content post hpost lk true
    · simp only [List.nil_append, cleanPbLines, hh]
      by_cases hh2 : pageHeaderMatch (pyStrip h) = true
      · rw [if_pos hh2]
        exact cleanPb_content post hpost lk true
      · rw [if_neg hh2]
        simp only [if_true]
        exact cleanPb_content post hpost lk true
  | p :: pre, hpre, post, hpost, h, hh, lk, nf => by
    obtain ⟨-, hne, hff, hhd, hft⟩ := hpre p (by simp)
    simp only [List.cons_append, cleanPbLines, hhd, hft]
    rw [if_neg (by simp), if_neg (by simp), if_neg (by simp [hne, hff])]
    rw [show pre.append (h :: post) = pre ++ h :: post from rfl]
    rw [cleanPb_delete pre (fun x hx => hpre x (by simp [hx])) post hpost h hh p true]

theorem mergePb_punct :
    ∀ (ls : List String), (∀ l ∈ ls, endsTerminalPunct (pyStrip l) = true) →
      mergePbLines ls = ls
  | [], _ => rfl
  | [_], _ => rfl
  | l :: nxt :: rest, h => by
    have hl := h l (by simp)
    simp only [mergePbLines]
    rw [if_neg (by simp [hl])]
    rw [mergePb_punct (nxt :: rest) (fun x hx => h x (by simp at hx; simp [hx]))]

/-! ### Claims C4, C2, C5 (HTML converter) -/

/-- C4 (counterexample): two content lines that match neither the header nor
the footer pattern do **not** pass through unchanged — `_remove_page_breaks`
merges a line lacking terminal punctuation with its successor. -/
theorem C4_counterexample :
    contentLine "hello" ∧ contentLine "world."
    ∧ removePageBreaks "hello\nworld." = "hello world."
    ∧ removePageBreaks "hello\nworld." ≠ "hello\nworld." := by decide

/-- C4 (amended): the de-pagination pass deletes the lines matching the
running-header and running-footer patterns and whitespace-only lines not
flanked by content, and merges a content line lacking terminal punctuation
into its successor; content lines that match neither pattern and end in
terminal punctuation pass through unchanged, in their original order, with
the matched header/footer lines removed. -/
theorem C4_pass_through_amended (pre post : List String) (h : String)
    (hpre : ∀ l ∈ pre, contentLine l ∧ endsTerminalPunct (pyStrip l) = true)
    (hpost : ∀ l ∈ post, contentLine l ∧ endsTerminalPunct (pyStrip l) = true)
    (hnl : '\n' ∉ h.data)
    (hmatch : pageHeaderMatch (pyStrip h) = true ∨ pageFooterMatch (pyStrip h) = true) :
    removePageBreaks (joinNlStr (pre ++ h :: post)) = joinNlStr (pre ++ post)
    ∧ removePageBreaks (joinNlStr (pre ++ post)) = joinNlStr (pre ++ post) := by
  have hcontent : ∀ l ∈ pre ++ post, contentLine l := by
    intro l hl
    rcases List.mem_append.mp hl with h1 | h1
    · exact (hpre l h1).1
    · exact (hpost l h1).1
  have hpunct : ∀ l ∈ pre ++ post, endsTerminalPunct (pyStrip l) = true := by
    intro l hl
    rcases List.mem_append.mp hl with h1 | h1
    · exact (hpre l h1).2
    · exact (hpost l h1).2
  have hnl1 : ∀ l ∈ pre ++ h :: post, '\n' ∉ l.data := by
    intro l hl
    rcases List.mem_append.mp hl with h1 | h1
    · exact (hpre l h1).1.1
    · rcases List.mem_cons.mp h1 with h2 | h2
      · exact h2 ▸ hnl
      · exact (hpost l h2).1.1
  constructor
  · have hsplit : pySplitNl (joinNlStr (pre ++ h :: post)) = pre ++ h :: post :=
      pySplitNl_joinNlStr _ (by simp) hnl1
    unfold removePageBreaks
    rw [hsplit,
      cleanPb_delete pre (fun l hl => (hpre l hl).1) post (fun l hl => (hpost l hl).1)
        h hmatch "" false,
      mergePb_punct _ hpunct]
  · rcases eq_or_ne (pre ++ post) [] with heq | hne2
    · rw [heq]; decide
    · have hsplit2 : pySplitNl (joinNlStr (pre ++ post)) = pre ++ post :=
        pySplitNl_joinNlStr _ hne2 (fun l hl => (hcontent l hl).1)
      unfold removePageBreaks
      rw [hsplit2, cleanPb_content _ hcontent "" false, mergePb_punct _ hpunct]

theorem C4_pass_through_amended_witness :
    removePageBreaks (joinNlStr (["Alpha."] ++ "A  Standards Track  [Page 1]" :: ["Beta."]))
      = joinNlStr (["Alpha."] ++ ["Beta."])
    ∧ removePageBreaks (joinNlStr (["Alpha."] ++ ["Beta."]))
      = joinNlStr (["Alpha."] ++ ["Beta."]) :=
  C4_pass_through_amended ["Alpha."] ["Beta."] "A  Standards Track  [Page 1]"
    (by decide) (by decide) (by decide) (Or.inl (by decide))

/-- The two-block document used to refute C2. -/
def twoPreDoc : HtmlDoc := ⟨[], none, ["A.", "B."]⟩

/-- C2 (counterexample): on a document with two preformatted blocks of texts
`"A."` and `"B."`, the extract step of `_process_document` passes only the
first block to the later passes: the converted output is `"A."` and the second
block's non-empty content appears nowhere in it, so the extract pass is not
the concatenation of every preformatted block. -/
theorem C2_counterexample :
    twoPreDoc.preBlocks = ["A.", "B."]
    ∧ joinNlStr (processDocument twoPreDoc) = "A."
    ∧ strContains (joinNlStr (processDocument twoPreDoc)) "B" = false
    ∧ strContains "B." "B" = true := by decide

/-- C2 (amended): the extract step of `_process_document` uses only the
**first** preformatted block (`pre_blocks[0]`); every later block is ignored,
so the conversion of a document equals the conversion of the same document
with all blocks after the first removed. -/
theorem C2_only_first_pre_block (mt : List (String × String)) (ts : Option String)
    (p : String) (ps : List String) :
    processDocument ⟨mt, ts, p :: ps⟩ = processDocument ⟨mt, ts, [p]⟩ := rfl

/-- The failing input for C5: a single preformatted block whose text has a
Table of Contents followed by three numbered section-boundary lines. -/
def tocDocText : String :=
  "Intro text.\n\nTable of Contents\n\n   1. Alpha ..... 3\n   2. Beta ..... 4\n   3. Gamma ..... 5\n\n1. Alpha\n\n   Alpha body.\n\n2. Beta\n\n   Beta body.\n\n3. Gamma\n\n   Gamma body."

def tocHtmlDoc : HtmlDoc := ⟨[], none, [tocDocText]⟩

set_option maxRecDepth 40000

/-- C5 (divergence witness): on a document whose extracted text contains a
Table of Contents block and numbered section boundaries, the committed
`_process_document` emits the de-paginated text verbatim: the output contains
no fenced block and no `section-` anchor at all, contradicting the claimed
fencing/TOC/anchor structure (which the repository's own end-to-end test
`test_convert_with_toc` expects of `convert()`). -/
theorem C5_no_fences_or_anchors :
    strContains tocDocText "Table of Contents" = true
    ∧ strContains tocDocText "\n1. Alpha" = true
    ∧ joinNlStr (processDocument tocHtmlDoc) = tocDocText
    ∧ strContains (joinNlStr (processDocument tocHtmlDoc)) "```" = false
    ∧ strContains (joinNlStr (processDocument tocHtmlDoc)) "section-" = false := by decide

/-! ## The XML converter (`src/lib/converter.py`, class `XmlToMdConverter`)

A parsed lxml element is a tag, an attribute dictionary, optional text,
optional tail text, and an ordered list of child elements.  `find`/`findall`
with a plain tag search the direct children only. -/

inductive Xml where
  | elem (tag : String) (attrs : List (String × String)) (textOpt : Option String)
      (tailOpt : Option String) (children : List Xml)

def Xml.tag : Xml → String
  | .elem t _ _ _ _ => t

def Xml.attrs : Xml → List (String × String)
  | .elem _ a _ _ _ => a

def Xml.textOpt : Xml → Option String
  | .elem _ _ tx _ _ => tx

def Xml.tailOpt : Xml → Option String
  | .elem _ _ _ tl _ => tl

def Xml.children : Xml → List Xml
  | .elem _ _ _ _ c => c

/-- Attribute lookup (lxml attribute keys are unique). -/
def attrLookup : List (String × String) → String → Option String
  | [], _ => none
  | (k, v) :: rest, name => if k = name then some v else attrLookup rest name

/-- `elem.get(name, default)`. -/
def Xml.getAttr (e : Xml) (name dflt : String) : String :=
  (attrLookup e.attrs name).getD dflt

/-- `elem.find(tag)`: first direct child with the tag. -/
def Xml.findChild (e : Xml) (t : String) : Option Xml :=
  e.children.find? (fun c => c.tag = t)

/-- `elem.findall(tag)`: all direct children with the tag, in order. -/
def Xml.findAll (e : Xml) (t : String) : List Xml :=
  e.children.filter (fun c => c.tag = t)

/-- Python `a or b` on strings (`""` is falsy). -/
def pyOrS (a b : String) : String := if a = "" then b else a

/-- Python `", ".join(parts)`. -/
def pyJoin (sep : String) : List String → String
  | [] => ""
  | [x] => x
  | x :: y :: t => x ++ sep ++ pyJoin sep (y :: t)

/-- `"#" * n` and friends. -/
def strRepeatN (s : String) (n : Nat) : String :=
  String.join (List.replicate n s)

/-- Python `s * n` for an `int` count (non-positive counts give `""`). -/
def strRepeatI (s : String) (n : Int) : String :=
  if n ≤ 0 then "" else strRepeatN s n.toNat

/-- `s.startswith(p)`. -/
def strStartsWith (s p : String) : Bool := prefixOccurs p.data s.data

/-- Python `s.replace(pat, sub)` (all non-overlapping occurrences, left to
right), with fuel bounding the scan length. -/
def replChars : Nat → List Char → List Char → List Char → List Char
  | 0, cs, _, _ => cs
  | fuel + 1, cs, pat, sub =>
    match cs with
    | [] => []
    | c :: rest =>
      if prefixOccurs pat (c :: rest) ∧ pat ≠ [] then
        sub ++ replChars fuel ((c :: rest).drop pat.length) pat sub
      else c :: replChars fuel rest pat sub

def pyReplace (s pat sub : String) : String :=
  String.mk (replChars s.data.length s.data pat.data sub.data)

/-! ### `XmlToMdConverter._get_element_text`  (src/lib/converter.py lines 971–1048) -/

mutual

/-- `_get_element_text`: own text, specially rendered inline children
(`xref`, `eref`, `bcp14`, `em`, `strong`, `tt`, `contact`, generic recursion
otherwise), each child's tail text; the concatenation is stripped. -/
def getElementText : Xml → String
  | .elem _ _ tx _ kids =>
    let first := match tx with
      | some t => if t ≠ "" then [t] else []
      | none => []
    pyStrip (String.join (first ++ getTextParts kids))

def getTextParts : List Xml → List String
  | [] => []
  | c :: cs =>
    let part : List String :=
      if c.tag = "xref" then
        let target := c.getAttr "target" ""
        let derived := c.getAttr "derivedContent" ""
        let ct := pyOrS (pyOrS (c.textOpt.getD "") derived) target
        if strStartsWith target "#" then ["[" ++ ct ++ "](" ++ target ++ ")"]
        else ["[" ++ ct ++ "](#" ++ target ++ ")"]
      else if c.tag = "eref" then
        let target := c.getAttr "target" ""
        let ct := pyOrS (c.textOpt.getD "") target
        ["[" ++ ct ++ "](" ++ target ++ ")"]
      else if c.tag = "bcp14" then ["**" ++ c.textOpt.getD "" ++ "**"]
      else if c.tag = "em" then ["*" ++ c.textOpt.getD "" ++ "*"]
      else if c.tag = "strong" then ["**" ++ c.textOpt.getD "" ++ "**"]
      else if c.tag = "tt" then ["`" ++ c.textOpt.getD "" ++ "`"]
      else if c.tag = "contact" then
        [pyOrS (c.getAttr "fullname" "") (c.textOpt.getD "")]
      else
        let t := getElementText c
        if t ≠ "" then [t] else []
    let tailPart : List String := match c.tailOpt with
      | some t => if t ≠ "" then [t] else []
      | none => []
    part ++ tailPart ++ getTextParts cs

end

/-! ### Paragraph indentation and Python `int()` -/

/-- Digits of an integer literal, with single underscores allowed between
digits (Python 3 `int()` grammar). -/
def digitsAux : List Char → Nat → Option Nat
  | [], acc => some acc
  | '_' :: rest, acc =>
    match rest with
    | [] => none
    | d :: rest2 => if d.isDigit then digitsAux rest2 (acc * 10 + (d.toNat - 48)) else none
  | d :: rest, acc =>
    if d.isDigit then digitsAux rest (acc * 10 + (d.toNat - 48)) else none

/-- Python `int(s)`: optional surrounding whitespace, optional sign, a
non-empty digit run; `none` models the `ValueError` it raises otherwise. -/
def pyIntParse (s : String) : Option Int :=
  let cs := ((s.data.dropWhile isPyWs).reverse.dropWhile isPyWs).reverse
  match cs with
  | [] => none
  | c :: rest =>
    let signed : Bool × List Char :=
      if c = '-' then (true, rest)
      else if c = '+' then (false, rest)
      else (false, c :: rest)
    match signed.2 with
    | [] => none
    | d :: ds =>
      if d.isDigit then
        match digitsAux ds (d.toNat - 48) with
        | some n => some (if signed.1 then -(n : Int) else (n : Int))
        | none => none
      else none

/-- The paragraph-with-indent logic shared verbatim by the abstract loop
(src/lib/converter.py lines 259–266) and `_process_section`'s `t` branch
(lines 712–720): extract the text; if non-empty, prefix `"  " * int(indent)`
when the `indent` attribute differs from `"0"` — `int()` raises `ValueError`
on a malformed attribute — and emit the text plus a blank line. -/
def tIndentText (e : Xml) : Except PyErr (List String) :=
  let text := getElementText e
  if text ≠ "" then
    let ind := e.getAttr "indent" "0"
    if ind ≠ "0" then
      match pyIntParse ind with
      | some n => .ok [strRepeatI "  " n ++ text, ""]
      | none => .error (.valueError ("invalid literal for int() with base 10: " ++ ind))
    else .ok [text, ""]
  else .ok []

/-- Left-to-right error propagation of two renderers appending in order. -/
def seqE (a b : Except PyErr (List String)) : Except PyErr (List String) :=
  match a with
  | .error e => .error e
  | .ok la =>
    match b with
    | .error e => .error e
    | .ok lb => .ok (la ++ lb)

/-! ### Leaf renderers  (src/lib/converter.py lines 844–969) -/

/-- `_process_artwork`: a fenced block, lines right-stripped. -/
def processArtwork (e : Xml) (inFigure : Bool) : List String :=
  let content := e.textOpt.getD ""
  ["```"]
  ++ (if content ≠ "" then (pySplitNl content).map pyRstrip else [])
  ++ ["```"]
  ++ (if inFigure then [] else [""])

/-- `_process_sourcecode`: a fenced block tagged with the `type` attribute. -/
def processSourcecode (e : Xml) (inFigure : Bool) : List String :=
  let lang := e.getAttr "type" ""
  let content := e.textOpt.getD ""
  [if lang ≠ "" then "```" ++ lang else "```"]
  ++ (if content ≠ "" then (pySplitNl content).map pyRstrip else [])
  ++ ["```"]
  ++ (if inFigure then [] else [""])

def figureKids : List Xml → List String
  | [] => []
  | c :: cs =>
    (if c.tag = "artwork" then processArtwork c true
     else if c.tag = "sourcecode" then processSourcecode c true
     else [])
    ++ figureKids cs

/-- `_process_figure`: optional numbered caption from the `pn` attribute, then
the contained artwork/sourcecode blocks. -/
def processFigure (e : Xml) : List String :=
  let pn := e.getAttr "pn" ""
  let figureNum := if strStartsWith pn "figure-" then pyReplace pn "figure-" "" ++ ": " else ""
  (match e.findChild "name" with
   | some ne =>
     match ne.textOpt with
     | some t =>
       if t ≠ "" then
         (if figureNum ≠ "" then ["**Figure " ++ figureNum ++ t ++ "**", ""]
          else ["**Figure: " ++ t ++ "**", ""])
       else []
     | none => []
   | none => [])
  ++ figureKids e.children

/-! ### Lists  (`_process_list`, src/lib/converter.py lines 749–782) -/

mutual

/-- `_process_list`: the item loop plus the blank line appended at the
top level only. -/
def processList : Xml → Bool → Nat → List String
  | .elem _ _ _ _ kids, ordered, ilvl =>
    listKidsLines kids ordered ilvl 1 ++ (if ilvl = 0 then [""] else [])

/-- The `li` loop of `_process_list` over the list element's children:
item text, then nested `ul`/`ol` children; the numeric counter advances only
in ordered lists. -/
def listKidsLines : List Xml → Bool → Nat → Nat → List String
  | [], _, _, _ => []
  | c :: cs, ordered, ilvl, counter =>
    if c.tag = "li" then
      let text := getElementText c
      let marker := if ordered then toString counter ++ "." else "-"
      (if text ≠ "" then [strRepeatN "  " ilvl ++ marker ++ " " ++ text] else [])
      ++ liNested c ilvl
      ++ listKidsLines cs ordered ilvl (if ordered then counter + 1 else counter)
    else listKidsLines cs ordered ilvl counter

/-- The nested-list scan over one list item's children. -/
def liNested : Xml → Nat → List String
  | .elem _ _ _ _ kids, ilvl => liNestedLines kids ilvl

/-- Nested `ul`/`ol` children of a list item, one indent level deeper. -/
def liNestedLines : List Xml → Nat → List String
  | [], _ => []
  | c :: cs, ilvl =>
    (if c.tag = "ul" then processList c false (ilvl + 1)
     else if c.tag = "ol" then processList c true (ilvl + 1)
     else [])
    ++ liNestedLines cs ilvl

end

/-- Python `for line in text.split("\n"): if line.strip(): append(pfx + line)`. -/
def indentNonblankLines (pfx : String) (text : String) : List String :=
  (pySplitNl text).filterMap
    (fun line => if pyStrip line ≠ "" then some (pfx ++ line) else none)

/-- The per-line re-indentation of the scratch-buffer splice in
`_process_definition_list`: `f"  {line}" if line else ""`. -/
def indentOrEmpty (l : String) : String :=
  if l ≠ "" then "  " ++ l else ""

/-! ### Definition lists  (`_process_definition_list`, src/lib/converter.py lines 784–842) -/

mutual

/-- `_process_definition_list`: the child loop plus one trailing blank line. -/
def processDefList : Xml → List String
  | .elem _ _ _ _ kids => dlKidsLines kids ++ [""]

/-- The `dt`/`dd` loop of `_process_definition_list`. -/
def dlKidsLines : List Xml → List String
  | [] => []
  | c :: cs =>
    (if c.tag = "dt" then
       let term := getElementText c
       if term ≠ "" then ["**" ++ term ++ "**"] else []
     else if c.tag = "dd" then
       if c.children.any (fun sc =>
           sc.tag = "t" ∨ sc.tag = "figure" ∨ sc.tag = "ul" ∨ sc.tag = "ol"
             ∨ sc.tag = "dl" ∨ sc.tag = "artwork" ∨ sc.tag = "sourcecode") then
         ddFromElem c
       else
         let desc := getElementText c
         if desc ≠ "" then indentNonblankLines "  " desc ++ [""] else []
     else [])
    ++ dlKidsLines cs

/-- The structural-`dd` case. -/
def ddFromElem : Xml → List String
  | .elem _ _ _ _ kids => ddKidsLines kids

/-- The nested-structure loop inside a `dd` with structural children;
figures and nested definition lists are rendered into a scratch buffer and
spliced back indented by two spaces. -/
def ddKidsLines : List Xml → List String
  | [] => []
  | c :: cs =>
    (if c.tag = "t" then
       let text := getElementText c
       if text ≠ "" then indentNonblankLines "  " text ++ [""] else []
     else if c.tag = "figure" then (processFigure c).map indentOrEmpty
     else if c.tag = "ul" then processList c false 1
     else if c.tag = "ol" then processList c true 1
     else if c.tag = "dl" then (processDefList c).map indentOrEmpty
     else [])
    ++ ddKidsLines cs

end

/-! ### Tables  (`_process_table`, src/lib/converter.py lines 907–949) -/

/-- The header cells: `thead`'s first `tr`'s `th` texts. -/
def tableHeaders (e : Xml) : List String :=
  match e.findChild "thead" with
  | none => []
  | some th =>
    match th.findChild "tr" with
    | none => []
    | some tr => (tr.findAll "th").map (fun c => getElementText c)

/-- The data rows: each `tbody` `tr`'s `td` texts; empty rows are dropped
(`if row: rows.append(row)`). -/
def tableRows (e : Xml) : List (List String) :=
  match e.findChild "tbody" with
  | none => []
  | some tb =>
    ((tb.findAll "tr").map (fun tr => (tr.findAll "td").map (fun c => getElementText c))).filter
      (fun row => row ≠ [])

/-- The `while len(row) < len(headers): row.append("")` padding. -/
def padRow (row : List String) (n : Nat) : List String :=
  row ++ List.replicate (n - row.length) ""

/-- A pipe-delimited Markdown table row. -/
def mdRow (cells : List String) : String :=
  "| " ++ pyJoin " | " cells ++ " |"

/-- `_process_table`: optional caption, header and separator rows when a
header exists, then the padded data rows and one blank line. -/
def processTable (e : Xml) : List String :=
  let headers := tableHeaders e
  (match e.findChild "name" with
   | some ne =>
     match ne.textOpt with
     | some t => if t ≠ "" then ["**Table: " ++ t ++ "**", ""] else []
     | none => []
   | none => [])
  ++ (if headers ≠ [] then
        [mdRow headers, mdRow (List.replicate headers.length "---")]
      else [])
  ++ (tableRows e).map (fun row => mdRow (padRow row headers.length))
  ++ [""]

/-! ### Notes and boilerplate  (src/lib/converter.py lines 368–379 and 951–969) -/

def noteKids : List Xml → List String
  | [] => []
  | c :: cs =>
    (if c.tag = "t" then
       let text := getElementText c
       if text ≠ "" then indentNonblankLines "> " text ++ [">"] else []
     else [])
    ++ noteKids cs

/-- `_process_note`: blockquote with optional bold name line. -/
def processNote (e : Xml) : List String :=
  (match e.findChild "name" with
   | some ne =>
     match ne.textOpt with
     | some t => if t ≠ "" then ["> **" ++ t ++ "**", ">"] else []
     | none => []
   | none => [])
  ++ noteKids e.children
  ++ [""]

def boilerKids : List Xml → List String
  | [] => []
  | c :: cs =>
    (if c.tag = "t" then
       let text := getElementText c
       if text ≠ "" then [text, ""] else []
     else [])
    ++ boilerKids cs

/-- `_process_boilerplate_section`: `##` heading plus paragraphs. -/
def processBoilerplate (e : Xml) : List String :=
  (match e.findChild "name" with
   | some ne =>
     match ne.textOpt with
     | some t => if t ≠ "" then ["## " ++ t, ""] else []
     | none => []
   | none => [])
  ++ boilerKids e.children

/-! ### Sections  (`_process_section`, src/lib/converter.py lines 686–747) -/

/-- `"#" * depth`. -/
def hashMarks (n : Nat) : String := String.mk (List.replicate n '#')

/-- The anchor tag and heading line of a section at (already clamped)
depth `d`, emitted when the section has a `name` child with truthy text. -/
def sectionHeaderLines (attrs : List (String × String)) (kids : List Xml) (d : Nat) :
    List String :=
  match kids.find? (fun c => c.tag = "name") with
  | none => []
  | some ne =>
    match ne.textOpt with
    | none => []
    | some nm =>
      if nm ≠ "" then
        let anchor := (attrLookup attrs "anchor").getD ""
        (if anchor ≠ "" then ["<a name=\"" ++ anchor ++ "\"></a>"] else [])
        ++ [hashMarks d ++ " " ++ nm, ""]
      else []

mutual

/-- `_process_section`: clamp the depth to 6, emit the anchored heading, then
dispatch the children in order (nested sections recurse at depth + 1). -/
def processSection : Xml → Nat → Except PyErr (List String)
  | .elem _ attrs _ _ kids, depth =>
    (processSecKids kids (min depth 6 + 1)).map
      (fun ls => sectionHeaderLines attrs kids (min depth 6) ++ ls)

/-- The child-dispatch loop of `_process_section`; `dp` is the depth at which
nested sections are processed (the parent's clamped depth plus one).  The `t`
branch can raise through `int(indent)`; every other branch is total. -/
def processSecKids : List Xml → Nat → Except PyErr (List String)
  | [], _ => .ok []
  | c :: cs, dp =>
    let childRes : Except PyErr (List String) :=
      if c.tag = "t" then tIndentText c
      else if c.tag = "section" then processSection c dp
      else
        .ok (if c.tag = "ul" then processList c false 0
          else if c.tag = "ol" then processList c true 0
          else if c.tag = "dl" then processDefList c
          else if c.tag = "figure" then processFigure c
          else if c.tag = "artwork" then processArtwork c false
          else if c.tag = "sourcecode" then processSourcecode c false
          else if c.tag = "table" then processTable c
          else if c.tag = "note" then processNote c
          else [])
    seqE childRes (processSecKids cs dp)

end

/-! ### Middle  (`_process_middle`, src/lib/converter.py lines 381–389) -/

def middleSections : List Xml → Except PyErr (List String)
  | [] => .ok []
  | c :: cs =>
    if c.tag = "section" then seqE (processSection c 1) (middleSections cs)
    else middleSections cs

/-- `_process_middle`: every top-level section at depth 1. -/
def processMiddle (root : Xml) : Except PyErr (List String) :=
  match root.findChild "middle" with
  | none => .ok []
  | some mid => middleSections mid.children

/-! ### Back matter  (src/lib/converter.py lines 391–684) -/

/-- The street/city/region/code/country fields of a postal address, in order,
keeping only truthy texts. -/
def postalParts (postal : Xml) : List String :=
  let grab := fun (t : String) =>
    match postal.findChild t with
    | some el =>
      match el.textOpt with
      | some s => if s ≠ "" then [s] else []
      | none => []
    | none => []
  grab "street" ++ grab "city" ++ grab "region" ++ grab "code" ++ grab "country"

/-- The organization / postal address / email block shared verbatim by
`_process_author_address` and `_process_contact`. -/
def orgAddrEmailLines (e : Xml) : List String :=
  (match e.findChild "organization" with
   | some o =>
     match o.textOpt with
     | some t => if t ≠ "" then ["- Organization: " ++ t] else []
     | none => []
   | none => [])
  ++ (match e.findChild "address" with
      | some ad =>
        (match ad.findChild "postal" with
         | some po =>
           let ps := postalParts po
           if ps ≠ [] then ["- Address: " ++ pyJoin ", " ps] else []
         | none => [])
        ++ (match ad.findChild "email" with
            | some em =>
              match em.textOpt with
              | some t => if t ≠ "" then ["- Email: " ++ t] else []
              | none => []
            | none => [])
      | none => [])

/-- `_process_author_address`. -/
def processAuthorAddress (e : Xml) : List String :=
  let fullname := e.getAttr "fullname" ""
  let initials := e.getAttr "initials" ""
  let surname := e.getAttr "surname" ""
  (if fullname ≠ "" then ["**" ++ fullname ++ "**"]
   else if initials ≠ "" ∧ surname ≠ "" then ["**" ++ initials ++ " " ++ surname ++ "**"]
   else if surname ≠ "" then ["**" ++ surname ++ "**"]
   else [])
  ++ [""]
  ++ orgAddrEmailLines e
  ++ [""]

/-- `_process_contact`. -/
def processContact (e : Xml) : List String :=
  let fullname := e.getAttr "fullname" ""
  (if fullname ≠ "" then ["**" ++ fullname ++ "**", ""] else [])
  ++ orgAddrEmailLines e
  ++ [""]

def unnumberedKids : List Xml → List String
  | [] => []
  | c :: cs =>
    (if c.tag = "t" then
       let text := getElementText c
       if text ≠ "" then [text, ""] else []
     else if c.tag = "contact" then processContact c
     else if c.tag = "author" then processAuthorAddress c
     else [])
    ++ unnumberedKids cs

/-- `_process_unnumbered_section` (Acknowledgements, Contributors,
Authors' Addresses). -/
def processUnnumbered (e : Xml) : List String :=
  (match e.findChild "name" with
   | some ne =>
     match ne.textOpt with
     | some t =>
       if t ≠ "" then
         let anchor := e.getAttr "anchor" ""
         (if anchor ≠ "" then ["<a name=\"" ++ anchor ++ "\"></a>"] else [])
         ++ ["# " ++ t, ""]
       else []
     | none => []
   | none => [])
  ++ unnumberedKids e.children

/-- `_process_reference` (src/lib/converter.py lines 597–684). -/
def processReference (r : Xml) (displayRefs : String → Option String) : List String :=
  let anchor := r.getAttr "anchor" ""
  let target := r.getAttr "target" ""
  let refId := (displayRefs anchor).getD anchor
  match r.findChild "front" with
  | none => []
  | some fr =>
    let idParts :=
      if refId ≠ "" then ["<a name=\"" ++ anchor ++ "\"></a>", "**[" ++ refId ++ "]**"]
      else []
    let authorNames := (fr.findAll "author").filterMap (fun a =>
      let initials := a.getAttr "initials" ""
      let surname := a.getAttr "surname" ""
      let fullname := a.getAttr "fullname" ""
      if surname ≠ "" then
        some (if initials ≠ "" then initials ++ " " ++ surname else surname)
      else if fullname ≠ "" then some fullname
      else none)
    let authorParts := if authorNames ≠ [] then [pyJoin ", " authorNames ++ ","] else []
    let titleParts := match fr.findChild "title" with
      | some te =>
        match te.textOpt with
        | some t => if t ≠ "" then ["\"" ++ t ++ "\","] else []
        | none => []
      | none => []
    let seriesVals := (r.findAll "seriesInfo").filterMap (fun si =>
      let n := si.getAttr "name" ""
      let v := si.getAttr "value" ""
      if n ≠ "" ∧ v ≠ "" then some (n ++ " " ++ v) else none)
    let seriesParts := if seriesVals ≠ [] then [pyJoin ", " seriesVals ++ ","] else []
    let dateParts := match fr.findChild "date" with
      | some de =>
        let mo := de.getAttr "month" ""
        let yr := de.getAttr "year" ""
        let ds := (if mo ≠ "" then mo ++ " " else "") ++ yr
        if ds ≠ "" then [ds ++ "."] else []
      | none => []
    let refcontentParts := match r.findChild "refcontent" with
      | some rc =>
        match rc.textOpt with
        | some t => if t ≠ "" then [t] else []
        | none => []
      | none => []
    let targetParts := if target ≠ "" then ["<" ++ target ++ ">"] else []
    [pyJoin " " (idParts ++ authorParts ++ titleParts ++ seriesParts ++ dateParts
      ++ refcontentParts ++ targetParts), ""]

def refEntries : List Xml → (String → Option String) → List String
  | [], _ => []
  | c :: cs, dr =>
    (if c.tag = "reference" then processReference c dr else []) ++ refEntries cs dr

/-- The Normative/Informative subsection loop of `_process_back`. -/
def refSections : List Xml → (String → Option String) → List String
  | [], _ => []
  | rs :: rest, dr =>
    (if rs.tag = "references" then
       (match rs.findChild "name" with
        | some ne =>
          match ne.textOpt with
          | some t =>
            if t ≠ "" then
              let anchor := rs.getAttr "anchor" ""
              (if anchor ≠ "" then ["<a name=\"" ++ anchor ++ "\"></a>"] else [])
              ++ ["## " ++ t, ""]
            else []
          | none => []
        | none => [])
       ++ refEntries rs.children dr
     else [])
    ++ refSections rest dr

/-- The appendix/section loop of `_process_back`: sections marked
`numbered="false"` or with one of the conventional anchors go through
`_process_unnumbered_section`; the rest recurse through `_process_section`
at depth 1. -/
def backSections : List Xml → Except PyErr (List String)
  | [] => .ok []
  | c :: cs =>
    if c.tag = "section" then
      let anchor := c.getAttr "anchor" ""
      let numbered := c.getAttr "numbered" "true"
      seqE
        (if numbered = "false"
            ∨ anchor ∈ ["Acknowledgements", "acknowledgements", "Contributors",
                "contributors", "authors-addresses"] then
          .ok (processUnnumbered c)
        else processSection c 1)
        (backSections cs)
    else backSections cs

/-- `_process_back`: display-name overrides, the wrapping `references`
container with its subsections, then the remaining `back` sections. -/
def processBack (root : Xml) : Except PyErr (List String) :=
  match root.findChild "back" with
  | none => .ok []
  | some back =>
    let displayRefs := (back.findAll "displayreference").foldl
      (fun m dr =>
        let tg := dr.getAttr "target" ""
        let toName := dr.getAttr "to" ""
        if tg ≠ "" ∧ toName ≠ "" then dictInsert m tg toName else m)
      emptyDict
    let refLines := match back.findChild "references" with
      | some rp =>
        let parentAnchor := rp.getAttr "anchor" "references"
        ["<a name=\"" ++ parentAnchor ++ "\"></a>"]
        ++ [(match rp.findChild "name" with
             | some pn2 =>
               match pn2.textOpt with
               | some t => if t ≠ "" then "# " ++ t else "# References"
               | none => "# References"
             | none => "# References")]
        ++ [""]
        ++ refSections rp.children displayRefs
      | none => []
    (backSections back.children).map (fun bs => refLines ++ bs)

/-! ### The anchor map  (src/lib/converter.py lines 38–70) -/

/-- The `pn → anchor` insertion a single section contributes
(`if pn and anchor: self.section_id_to_anchor[pn] = anchor`). -/
def insertAnchorPair (m : String → Option String) (attrs : List (String × String)) :
    String → Option String :=
  let pn := (attrLookup attrs "pn").getD ""
  let anchor := (attrLookup attrs "anchor").getD ""
  if pn ≠ "" ∧ anchor ≠ "" then dictInsert m pn anchor else m

mutual

/-- `_collect_section_anchors` on one section element: its own pair, then its
section descendants. -/
def collectFromSec : (String → Option String) → Xml → String → Option String
  | m, .elem _ ca _ _ ckids => collectKids (insertAnchorPair m ca) ckids

/-- `_collect_section_anchors` over a child list: every `section` child
contributes its own pair and then, recursively, its section descendants,
in document order. -/
def collectKids : (String → Option String) → List Xml → String → Option String
  | m, [] => m
  | m, c :: cs =>
    collectKids (if c.tag = "section" then collectFromSec m c else m) cs

end

/-- `_build_section_anchor_mapping`: pre-scan the sections of `middle`, then
those of `back`. -/
def buildAnchorMap (m0 : String → Option String) (root : Xml) : String → Option String :=
  let m1 := match root.findChild "middle" with
    | some mid => collectKids m0 mid.children
    | none => m0
  match root.findChild "back" with
  | some bk => collectKids m1 bk.children
  | none => m1

/-! ### Table of Contents  (src/lib/converter.py lines 274–366) -/

/-- An entry of the fallback registry `self.toc_entries` (never populated by
the pipeline itself; `__init__` starts it empty). -/
structure TocEntry where
  depth : Int
  title : String
  anchor : String
  number : String
deriving DecidableEq

/-- The fallback branch of `_generate_toc`. -/
def tocFallbackLines (entries : List TocEntry) : List String :=
  entries.map (fun en =>
    let ind := strRepeatI "  " (en.depth - 1)
    if en.number ≠ "" then
      ind ++ "- [" ++ en.number ++ ". " ++ en.title ++ "](#" ++ en.anchor ++ ")"
    else
      ind ++ "- [" ++ en.title ++ "](#" ++ en.anchor ++ ")")

/-- The entry a `li`'s first `t` child contributes in `_process_toc_list`:
with two or more `xref` children the first gives the section number and
target, the second the title; with exactly one, a title-only entry; the link
target is `section_id_to_anchor.get(target, target)`. -/
def tocLiEntry (m : String → Option String) (depth : Nat) (liKids : List Xml) :
    List String :=
  match liKids.find? (fun c => c.tag = "t") with
  | none => []
  | some t =>
    let ind := strRepeatN "  " depth
    match t.findAll "xref" with
    | x1 :: x2 :: _ =>
      let target := x1.getAttr "target" ""
      let sectionNum := x1.getAttr "derivedContent" ""
      let title := pyOrS (x2.getAttr "derivedContent" "") (x2.textOpt.getD "")
      if sectionNum ≠ "" ∧ title ≠ "" then
        [ind ++ "- [" ++ sectionNum ++ ". " ++ title ++ "](#" ++ (m target).getD target ++ ")"]
      else if title ≠ "" then
        [ind ++ "- [" ++ title ++ "](#" ++ (m target).getD target ++ ")"]
      else []
    | [x] =>
      let target := x.getAttr "target" ""
      let title := pyOrS (x.getAttr "derivedContent" "") (x.textOpt.getD "")
      if title ≠ "" then
        [ind ++ "- [" ++ title ++ "](#" ++ (m target).getD target ++ ")"]
      else []
    | [] => []

mutual

/-- `_process_toc_list` on a `ul` element. -/
def processTocList : (String → Option String) → Xml → Nat → List String
  | m, .elem _ _ _ _ kids, depth => tocLiList m depth kids

/-- The `li` loop of `_process_toc_list`. -/
def tocLiList (m : String → Option String) (depth : Nat) : List Xml → List String
  | [] => []
  | c :: rest =>
    (if c.tag = "li" then tocLiEntry m depth c.children ++ tocFromLi m depth c else [])
    ++ tocLiList m depth rest

/-- The nested-list scan over one `li`'s children. -/
def tocFromLi : (String → Option String) → Nat → Xml → List String
  | m, depth, .elem _ _ _ _ kids => tocLiNested m depth kids

/-- `li.find("ul")` and the recursive call at depth + 1. -/
def tocLiNested (m : String → Option String) (depth : Nat) : List Xml → List String
  | [] => []
  | c :: cs =>
    if c.tag = "ul" then processTocList m c (depth + 1)
    else tocLiNested m depth cs

end

/-- `_generate_toc`: the unconditional heading, then the entries of the
document's explicit `front/toc/section/ul` list when present, otherwise the
fallback registry's entries (when any). -/
def generateToc (root : Xml) (m : String → Option String) (entries : List TocEntry) :
    List String :=
  ["## Table of Contents", ""]
  ++ (match (root.findChild "front").bind (fun f =>
        (f.findChild "toc").bind (fun te =>
          (te.findChild "section").bind (fun ts => ts.findChild "ul"))) with
      | some ul => processTocList m ul 0 ++ [""]
      | none => if entries ≠ [] then tocFallbackLines entries ++ [""] else [])

/-! ### Front matter  (`_process_front`, src/lib/converter.py lines 109–272) -/

/-- The author list of the front matter. -/
def authorItems : List Xml → List String
  | [] => []
  | a :: as =>
    let fullname := a.getAttr "fullname" ""
    let initials := a.getAttr "initials" ""
    let surname := a.getAttr "surname" ""
    let role := a.getAttr "role" ""
    let base := pyOrS fullname (pyStrip (initials ++ " " ++ surname))
    ["- " ++ (if role = "editor" then base ++ " *(Editor)*" else base)]
    ++ (match a.findChild "organization" with
        | some o =>
          match o.textOpt with
          | some t => if t ≠ "" then ["  - " ++ t] else []
          | none => []
        | none => [])
    ++ (match a.findChild "address" with
        | some ad =>
          match ad.findChild "email" with
          | some em =>
            match em.textOpt with
            | some t => if t ≠ "" then ["  - Email: " ++ t] else []
            | none => []
          | none => []
        | none => [])
    ++ authorItems as

/-- The abstract's paragraph loop (only `t` children), with the fallible
indent handling. -/
def abstractTs : List Xml → Except PyErr (List String)
  | [] => .ok []
  | c :: cs =>
    if c.tag = "t" then seqE (tIndentText c) (abstractTs cs)
    else abstractTs cs

def boilerSecs : List Xml → List String
  | [] => []
  | c :: cs =>
    (if c.tag = "section" then processBoilerplate c else []) ++ boilerSecs cs

/-- `_process_front`. -/
def processFront (root : Xml) : Except PyErr (List String) :=
  match root.findChild "front" with
  | none => .ok []
  | some front =>
    let titleLines := match front.findChild "title" with
      | some te =>
        let title := te.textOpt.getD ""
        let abbr := te.getAttr "abbrev" ""
        ["# " ++ title]
        ++ (if abbr ≠ "" ∧ abbr ≠ title then ["*(" ++ abbr ++ ")*"] else [])
        ++ [""]
      | none => []
    let seriesLines := match front.findChild "seriesInfo" with
      | some si =>
        let nm := si.getAttr "name" ""
        let v := si.getAttr "value" ""
        let st := si.getAttr "stream" ""
        if nm ≠ "" ∧ v ≠ "" then
          ["**" ++ nm ++ " " ++ v ++ "**"]
          ++ (if st ≠ "" then ["*Stream: " ++ st ++ "*"] else [])
          ++ [""]
        else []
      | none => []
    let field := fun (attr label : String) =>
      let v := root.getAttr attr ""
      if v ≠ "" then ["**" ++ label ++ ":** " ++ v] else []
    let metaFields := field "category" "Category" ++ field "obsoletes" "Obsoletes"
      ++ field "updates" "Updates" ++ field "submissionType" "Submission Type"
      ++ field "consensus" "Consensus" ++ field "ipr" "IPR" ++ field "docName" "Doc Name"
    let metaBlock := if metaFields ≠ [] then metaFields ++ [""] else []
    let authors := front.findAll "author"
    let authorBlock :=
      if authors.isEmpty then [] else ["## Authors", ""] ++ authorItems authors ++ [""]
    let dateBlock := match front.findChild "date" with
      | some de =>
        let dy := de.getAttr "day" ""
        let mo := de.getAttr "month" ""
        let yr := de.getAttr "year" ""
        let ds := (if dy ≠ "" then dy ++ " " else "")
          ++ (if mo ≠ "" then mo ++ " " else "") ++ yr
        if ds ≠ "" then ["**Date:** " ++ pyStrip ds, ""] else []
      | none => []
    let areaBlock := match front.findChild "area" with
      | some a =>
        match a.textOpt with
        | some t => if t ≠ "" then ["**Area:** " ++ t, ""] else []
        | none => []
      | none => []
    let wgBlock := match front.findChild "workgroup" with
      | some w =>
        match w.textOpt with
        | some t => if t ≠ "" then ["**Workgroup:** " ++ t, ""] else []
        | none => []
      | none => []
    let kwList := (front.findAll "keyword").filterMap (fun k =>
      match k.textOpt with
      | some t => if t ≠ "" then some t else none
      | none => none)
    let kwBlock := if kwList ≠ [] then ["**Keywords:** " ++ pyJoin ", " kwList, ""] else []
    let links := root.findAll "link"
    let linkBlock :=
      if links.isEmpty then []
      else
        ["## Related Documents", ""]
        ++ links.filterMap (fun l =>
            let href := l.getAttr "href" ""
            let rel := l.getAttr "rel" ""
            if href ≠ "" then
              some ("- [" ++ (if rel ≠ "" then rel else "Link") ++ "](" ++ href ++ ")")
            else none)
        ++ [""]
    let abstractE : Except PyErr (List String) := match front.findChild "abstract" with
      | some ab => (abstractTs ab.children).map (fun ls => ["## Abstract", ""] ++ ls)
      | none => .ok []
    let boilerBlock := match front.findChild "boilerplate" with
      | some bp => boilerSecs bp.children
      | none => []
    abstractE.map (fun absLines =>
      titleLines ++ seriesLines ++ metaBlock ++ authorBlock ++ dateBlock
      ++ areaBlock ++ wgBlock ++ kwBlock ++ linkBlock ++ absLines ++ boilerBlock)

/-! ### `XmlToMdConverter.convert`  (src/lib/converter.py lines 72–107)

The instance state that survives a `convert` call (the `__init__` fields that
the pipeline reads or writes): the output line buffer `markdown_lines`, the
anchor map `section_id_to_anchor`, and the fallback registry `toc_entries`.
`convert` never resets them. -/

structure ConvState where
  lines : List String
  anchors : String → Option String
  tocEntries : List TocEntry

/-- `__init__`. -/
def initConvState : ConvState := ⟨[], emptyDict, []⟩

/-- One `convert()` call on the instance state `st`; a parse/read failure of
the input is modelled as the `none` document and raises `ValueError`.  On
success the processed lines are appended to the surviving buffer and the
joined buffer is returned. -/
def convertCall : ConvState → Option Xml → Except PyErr (ConvState × String)
  | _, none => .error (.valueError "Invalid XML syntax")
  | st, some root =>
    match processFront root with
    | .error e => .error e
    | .ok frontLines =>
      let m := buildAnchorMap st.anchors root
      let tocLines := generateToc root m st.tocEntries
      match processMiddle root with
      | .error e => .error e
      | .ok midLines =>
        match processBack root with
        | .error e => .error e
        | .ok backLines =>
          let allLines := st.lines ++ frontLines
            ++ (if tocLines ≠ [] then tocLines else [])
            ++ midLines ++ backLines
          .ok (⟨allLines, m, st.tocEntries⟩, joinNlStr allLines)

/-- The markdown lines of a first `convert()` call on a fresh instance. -/
def convertLines (root : Xml) : Except PyErr (List String) :=
  (convertCall initConvState (some root)).map (fun r => r.1.lines)

/-- The string a first `convert()` call returns. -/
def xmlConvert (doc : Option Xml) : Except PyErr String :=
  (convertCall initConvState doc).map (fun r => r.2)

/-! ### The anchor map as a fold of insertions -/

/-- The `(pn, anchor)` pair a single section's attributes contribute. -/
def anchorPairOf (attrs : List (String × String)) : List (String × String) :=
  let pn := (attrLookup attrs "pn").getD ""
  let anchor := (attrLookup attrs "anchor").getD ""
  if pn ≠ "" ∧ anchor ≠ "" then [(pn, anchor)] else []

mutual

/-- The pairs one section element contributes. -/
def pairsFromSec : Xml → List (String × String)
  | .elem _ ca _ _ ckids => anchorPairOf ca ++ pairKids ckids

/-- All `(pn, anchor)` pairs the pre-scan collects from a child list, in
collection order. -/
def pairKids : List Xml → List (String × String)
  | [] => []
  | c :: cs => (if c.tag = "section" then pairsFromSec c else []) ++ pairKids cs

end

/-- All pairs the pre-scan collects: those of `middle`'s sections, then those
of `back`'s sections. -/
def docSectionPairs (root : Xml) : List (String × String) :=
  (match root.findChild "middle" with
   | some mid => pairKids mid.children
   | none => [])
  ++ (match root.findChild "back" with
      | some bk => pairKids bk.children
      | none => [])

/-- Sequential dictionary insertion (later pairs override earlier ones). -/
def insertAll (m : String → Option String) : List (String × String) → String → Option String
  | [] => m
  | (k, v) :: ps => insertAll (dictInsert m k v) ps

/-- The value of the last pair with the given key. -/
def lastAssoc : List (String × String) → String → Option String
  | [], _ => none
  | (k, v) :: ps, x =>
    match lastAssoc ps x with
    | some w => some w
    | none => if x = k then some v else none

theorem insertAll_append (ps qs : List (String × String)) :
    ∀ m, insertAll m (ps ++ qs) = insertAll (insertAll m ps) qs := by
  induction ps with
  | nil => intro m; rfl
  | cons p ps ih =>
    intro m
    cases p with
    | mk k v =>
      simp only [List.cons_append, insertAll]
      rw [show (ps.append qs : List (String × String)) = ps ++ qs from rfl, ih]

theorem insertAll_lookup (ps : List (String × String)) :
    ∀ m x, insertAll m ps x =
      match lastAssoc ps x with
      | some w => some w
      | none => m x := by
  induction ps with
  | nil => intro m x; rfl
  | cons p ps ih =>
    intro m x
    cases p with
    | mk k v =>
      simp only [insertAll, lastAssoc, ih]
      cases lastAssoc ps x with
      | some w => rfl
      | none =>
        simp only [dictInsert]
        by_cases h : x = k
        · simp [h]
        · simp [h]

theorem lastAssoc_mem (ps : List (String × String)) (x w : String)
    (h : lastAssoc ps x = some w) : (x, w) ∈ ps := by
  induction ps with
  | nil => simp [lastAssoc] at h
  | cons p ps ih =>
    cases p with
    | mk k v =>
      simp only [lastAssoc] at h
      cases hl : lastAssoc ps x with
      | some w' =>
        rw [hl] at h
        simp at h
        exact List.mem_cons_of_mem _ (ih (h ▸ hl))
      | none =>
        rw [hl] at h
        by_cases hk : x = k
        · simp [hk] at h
          simp [hk, h]
        · simp [hk] at h

theorem lastAssoc_isSome (ps : List (String × String)) (k v : String)
    (h : (k, v) ∈ ps) : lastAssoc ps k ≠ none := by
  induction ps with
  | nil => simp at h
  | cons p ps ih =>
    cases p with
    | mk k' v' =>
      simp only [lastAssoc]
      rcases List.mem_cons.mp h with h1 | h1
      · cases h1
        cases hl : lastAssoc ps k with
        | some w => simp
        | none => simp
      · cases hl : lastAssoc ps k with
        | some w => simp
        | none => exact absurd hl (ih h1)

theorem insertAll_covers (ps : List (String × String)) (m : String → Option String)
    (k v : String) (h : (k, v) ∈ ps) :
    ∃ w, insertAll m ps k = some w ∧ (k, w) ∈ ps := by
  rw [insertAll_lookup]
  cases hl : lastAssoc ps k with
  | some w => exact ⟨w, rfl, lastAssoc_mem ps k w hl⟩
  | none => exact absurd hl (lastAssoc_isSome ps k v h)

theorem lastAssoc_not_mem (ps : List (String × String)) (x : String)
    (h : x ∉ ps.map Prod.fst) : lastAssoc ps x = none := by
  induction ps with
  | nil => rfl
  | cons p ps ih =>
    cases p with
    | mk k v =>
      simp only [List.map_cons, List.mem_cons] at h
      push_neg at h
      simp only [lastAssoc, ih h.2]
      simp [h.1]

theorem insertAnchorPair_eq (m : String → Option String) (ca : List (String × String)) :
    insertAnchorPair m ca = insertAll m (anchorPairOf ca) := by
  unfold insertAnchorPair anchorPairOf
  by_cases h : (attrLookup ca "pn").getD "" ≠ "" ∧ (attrLookup ca "anchor").getD "" ≠ ""
  · simp only [if_pos h, insertAll]
  · simp only [if_neg h, insertAll]

theorem collectKids_eq :
    ∀ (kids : List Xml) (m : String → Option String),
      collectKids m kids = insertAll m (pairKids kids)
  | [], _ => by simp [collectKids, pairKids, insertAll]
  | (Xml.elem ctag ca cx ct ckids) :: cs, m => by
    simp only [collectKids, pairKids, collectFromSec, pairsFromSec, Xml.tag]
    by_cases h : ctag = "section"
    · simp only [if_pos h]
      rw [collectKids_eq cs, collectKids_eq ckids, insertAll_append, insertAll_append,
        insertAnchorPair_eq]
    · simp only [if_neg h]
      rw [collectKids_eq cs]
      simp [insertAll]

theorem buildAnchorMap_eq (m : String → Option String) (root : Xml) :
    buildAnchorMap m root = insertAll m (docSectionPairs root) := by
  unfold buildAnchorMap docSectionPairs
  cases hm : root.findChild "middle" with
  | none =>
    cases hb : root.findChild "back" with
    | none => simp [insertAll]
    | some bk => simp [collectKids_eq, insertAll]
  | some mid =>
    cases hb : root.findChild "back" with
    | none => simp [collectKids_eq, insertAll_append, insertAll]
    | some bk => simp [collectKids_eq, insertAll_append]

/-- Rebuilding the anchor map from the same document changes nothing — the
key fact for a second `convert()` call. -/
theorem buildAnchorMap_idem (m : String → Option String) (root : Xml) :
    buildAnchorMap (buildAnchorMap m root) root = buildAnchorMap m root := by
  funext x
  rw [buildAnchorMap_eq, buildAnchorMap_eq, insertAll_lookup, insertAll_lookup]
  cases lastAssoc (docSectionPairs root) x <;> rfl

/-! ### Claims C10, C7, C8 (XML converter) -/

theorem generateToc_head (root : Xml) (m : String → Option String)
    (entries : List TocEntry) :
    ∃ rest, generateToc root m entries = "## Table of Contents" :: "" :: rest :=
  ⟨_, rfl⟩

/-- C10: `_generate_toc` unconditionally emits the `## Table of Contents`
heading (and a blank line) before any entries, and `convert` always appends
the generated block, so every successful conversion's line buffer contains
the heading — even for a document with no embedded TOC list and an empty
fallback registry. -/
theorem C10_toc_heading_always (root : Xml) (ls : List String)
    (h : convertLines root = .ok ls) :
    "## Table of Contents" ∈ ls := by
  simp only [convertLines, convertCall] at h
  cases hf : processFront root with
  | error e => rw [hf] at h; simp [Except.map] at h
  | ok f =>
    rw [hf] at h
    cases hm : processMiddle root with
    | error e => rw [hm] at h; simp [Except.map] at h
    | ok mid =>
      rw [hm] at h
      cases hb : processBack root with
      | error e => rw [hb] at h; simp [Except.map] at h
      | ok bk =>
        rw [hb] at h
        simp only [Except.map] at h
        obtain ⟨rest, hg⟩ :=
          generateToc_head root (buildAnchorMap initConvState.anchors root)
            initConvState.tocEntries
        injection h with h
        subst h
        rw [hg]
        simp

def w10doc : Xml := Xml.elem "rfc" [] none none []

theorem C10_toc_heading_always_witness :
    "## Table of Contents" ∈ ["## Table of Contents", ""] :=
  C10_toc_heading_always w10doc ["## Table of Contents", ""] rfl

theorem hashMarks_length (n : Nat) : (hashMarks n).length = n := by
  simp [hashMarks, String.length]

/-- C7: `_process_section` clamps the heading depth at 6: the heading marker
run of a named section at nesting depth `d` is `"#" * min d 6`, recursion into
children continues at the clamped depth plus one, and a section deeper than 6
renders exactly as it would at depth 6 — content included. -/
theorem C7_heading_depth_clamped (tg : String) (attrs : List (String × String))
    (tx tl : Option String) (kids : List Xml) (depth : Nat) (ne : Xml) (nm : String)
    (res : List String)
    (hfind : kids.find? (fun c => c.tag = "name") = some ne)
    (htext : ne.textOpt = some nm)
    (hnm : nm ≠ "")
    (hres : processSection (Xml.elem tg attrs tx tl kids) depth = .ok res) :
    processSection (Xml.elem tg attrs tx tl kids) depth
      = processSection (Xml.elem tg attrs tx tl kids) (min depth 6)
    ∧ (∃ rest, processSecKids kids (min depth 6 + 1) = .ok rest
        ∧ res =
          (if (attrLookup attrs "anchor").getD "" ≠ ""
           then ["<a name=\"" ++ (attrLookup attrs "anchor").getD "" ++ "\"></a>"]
           else [])
          ++ [hashMarks (min depth 6) ++ " " ++ nm, ""] ++ rest)
    ∧ (hashMarks (min depth 6)).length = min depth 6
    ∧ (6 ≤ depth →
        processSection (Xml.elem tg attrs tx tl kids) depth
          = processSection (Xml.elem tg attrs tx tl kids) 6) := by
  have hclamp : min (min depth 6) 6 = min depth 6 :=
    Nat.min_eq_left (Nat.min_le_right depth 6)
  refine ⟨?_, ?_, hashMarks_length _, ?_⟩
  · simp only [processSection, hclamp]
  · cases hk : processSecKids kids (min depth 6 + 1) with
    | error e =>
      simp only [processSection, hk, Except.map] at hres
      cases hres
    | ok rest =>
      refine ⟨rest, rfl, ?_⟩
      simp only [processSection, hk, Except.map] at hres
      injection hres with hres
      subst hres
      simp only [sectionHeaderLines, hfind, htext, if_pos hnm, List.append_assoc]
  · intro h6
    have h66 : min depth 6 = 6 := Nat.min_eq_right h6
    simp only [processSection, h66, Nat.min_self]

def w7sec : Xml := Xml.elem "section" [("anchor", "deep")] none none
  [Xml.elem "name" [] (some "Deep Title") none [], Xml.elem "t" [] (some "Body.") none []]

theorem C7_heading_depth_clamped_witness :
    processSection w7sec 9 = processSection w7sec (min 9 6)
    ∧ (∃ rest, processSecKids w7sec.children (min 9 6 + 1) = .ok rest
        ∧ ["<a name=\"deep\"></a>", "###### Deep Title", "", "Body.", ""] =
          (if (attrLookup w7sec.attrs "anchor").getD "" ≠ ""
           then ["<a name=\"" ++ (attrLookup w7sec.attrs "anchor").getD "" ++ "\"></a>"]
           else [])
          ++ [hashMarks (min 9 6) ++ " " ++ "Deep Title", ""] ++ rest)
    ∧ (hashMarks (min 9 6)).length = min 9 6
    ∧ (6 ≤ 9 → processSection w7sec 9 = processSection w7sec 6) :=
  C7_heading_depth_clamped "section" [("anchor", "deep")] none none w7sec.children 9
    (Xml.elem "name" [] (some "Deep Title") none []) "Deep Title"
    ["<a name=\"deep\"></a>", "###### Deep Title", "", "Body.", ""]
    rfl rfl (by decide) (by rfl)

/-- C8: in `_process_table`, every data row shorter than the header row is
padded with empty-string cells up to the header column count; the emitted
pipe row for such a row is exactly `mdRow` of the padded row, which has as
many cells as the header row. -/
theorem C8_short_rows_padded (t : Xml) (row : List String)
    (hrow : row ∈ tableRows t)
    (hlt : row.length < (tableHeaders t).length) :
    padRow row (tableHeaders t).length
      = row ++ List.replicate ((tableHeaders t).length - row.length) ""
    ∧ (padRow row (tableHeaders t).length).length = (tableHeaders t).length
    ∧ mdRow (padRow row (tableHeaders t).length) ∈ processTable t := by
  refine ⟨rfl, ?_, ?_⟩
  · simp only [padRow, List.length_append, List.length_replicate]
    omega
  · unfold processTable
    refine List.mem_append.mpr (Or.inl (List.mem_append.mpr (Or.inr ?_)))
    exact List.mem_map_of_mem _ hrow

def w8table : Xml := Xml.elem "table" [] none none
  [Xml.elem "thead" [] none none [Xml.elem "tr" [] none none
    [Xml.elem "th" [] (some "A") none [], Xml.elem "th" [] (some "B") none []]],
   Xml.elem "tbody" [] none none [Xml.elem "tr" [] none none
    [Xml.elem "td" [] (some "x") none []]]]

theorem C8_short_rows_padded_witness :
    padRow ["x"] (tableHeaders w8table).length
      = ["x"] ++ List.replicate ((tableHeaders w8table).length - 1) ""
    ∧ (padRow ["x"] (tableHeaders w8table).length).length = (tableHeaders w8table).length
    ∧ mdRow (padRow ["x"] (tableHeaders w8table).length) ∈ processTable w8table :=
  C8_short_rows_padded w8table ["x"] (by decide) (by decide)

/-! ### Claim C1: error behaviour of the converters -/

/-- The only fallible operation after the initial parse is `int(indent)`:
a node is harmless when its `indent` attribute (defaulted to `"0"`) is `"0"`
or a valid Python integer literal. -/
def indentAttrOk (attrs : List (String × String)) : Bool :=
  let ind := (attrLookup attrs "indent").getD "0"
  ind = "0" || (pyIntParse ind).isSome

mutual

def allIndentsOk : Xml → Bool
  | .elem _ a _ _ kids => indentAttrOk a && allKidsIndentsOk kids

def allKidsIndentsOk : List Xml → Bool
  | [] => true
  | c :: cs => allIndentsOk c && allKidsIndentsOk cs

end

theorem allIndentsOk_node (tg : String) (a : List (String × String))
    (tx tl : Option String) (kids : List Xml)
    (h : allIndentsOk (Xml.elem tg a tx tl kids) = true) :
    indentAttrOk a = true ∧ allKidsIndentsOk kids = true := by
  simp only [allIndentsOk, Bool.and_eq_true] at h
  exact h

theorem allKidsIndentsOk_mem :
    ∀ (kids : List Xml), allKidsIndentsOk kids = true →
      ∀ c ∈ kids, allIndentsOk c = true := by
  intro kids
  induction kids with
  | nil => intro _ c hc; simp at hc
  | cons k ks ih =>
    intro h c hc
    simp only [allKidsIndentsOk, Bool.and_eq_true] at h
    rcases List.mem_cons.mp hc with h1 | h1
    · exact h1 ▸ h.1
    · exact ih h.2 c h1

theorem allIndentsOk_child (e : Xml) (h : allIndentsOk e = true) :
    ∀ c ∈ e.children, allIndentsOk c = true := by
  cases e with
  | elem tg a tx tl kids =>
    exact allKidsIndentsOk_mem kids (allIndentsOk_node tg a tx tl kids h).2

theorem findChild_mem (e : Xml) (t : String) (c : Xml)
    (h : e.findChild t = some c) : c ∈ e.children :=
  List.mem_of_find?_eq_some h

theorem tIndentText_ok (e : Xml) (h : indentAttrOk e.attrs = true) :
    ∃ ls, tIndentText e = .ok ls := by
  unfold tIndentText
  by_cases ht : getElementText e ≠ ""
  · simp only [if_pos ht]
    by_cases hi : e.getAttr "indent" "0" ≠ "0"
    · simp only [if_pos hi]
      simp only [indentAttrOk, Bool.or_eq_true, decide_eq_true_eq] at h
      rcases h with h | h
      · exact absurd h (by simpa [Xml.getAttr] using hi)
      · rcases Option.isSome_iff_exists.mp (by simpa [Xml.getAttr] using h) with ⟨n, hn⟩
        rw [show e.getAttr "indent" "0" = (attrLookup e.attrs "indent").getD "0" from rfl, hn]
        exact ⟨_, rfl⟩
    · simp only [if_neg hi]
      exact ⟨_, rfl⟩
  · simp only [if_neg ht]
    exact ⟨_, rfl⟩

def exceptIsOk {α : Type} : Except PyErr α → Bool
  | .ok _ => true
  | .error _ => false

theorem exists_of_exceptIsOk {α : Type} (x : Except PyErr α)
    (h : exceptIsOk x = true) : ∃ a, x = .ok a := by
  cases x with
  | error e => simp [exceptIsOk] at h
  | ok a => exact ⟨a, rfl⟩

theorem seqE_ok (a b : Except PyErr (List String))
    (ha : ∃ la, a = .ok la) (hb : ∃ lb, b = .ok lb) :
    ∃ l, seqE a b = .ok l := by
  rcases ha with ⟨la, rfl⟩
  rcases hb with ⟨lb, rfl⟩
  exact ⟨la ++ lb, rfl⟩

theorem abstractTs_ok :
    ∀ (cs : List Xml), (∀ c ∈ cs, allIndentsOk c = true) →
      ∃ ls, abstractTs cs = .ok ls := by
  intro cs
  induction cs with
  | nil => exact fun _ => ⟨[], rfl⟩
  | cons c cs ih =>
    intro h
    simp only [abstractTs]
    by_cases hc : c.tag = "t"
    · simp only [if_pos hc]
      refine seqE_ok _ _ ?_ (ih (fun x hx => h x (by simp [hx])))
      have := h c (by simp)
      cases c with
      | elem tg a tx tl kids =>
        exact tIndentText_ok _ (allIndentsOk_node tg a tx tl kids this).1
    · simp only [if_neg hc]
      exact ih (fun x hx => h x (by simp [hx]))

mutual

theorem processSection_ok :
    ∀ (e : Xml), allIndentsOk e = true → ∀ d, ∃ ls, processSection e d = .ok ls
  | .elem tg a tx tl kids, h, d => by
    obtain ⟨ls, hls⟩ := processSecKids_ok kids (min d 6 + 1)
      (allKidsIndentsOk_mem kids (allIndentsOk_node tg a tx tl kids h).2)
    refine ⟨sectionHeaderLines a kids (min d 6) ++ ls, ?_⟩
    simp only [processSection, hls, Except.map]

theorem processSecKids_ok :
    ∀ (cs : List Xml) (dp : Nat), (∀ c ∈ cs, allIndentsOk c = true) →
      ∃ ls, processSecKids cs dp = .ok ls
  | [], _, _ => ⟨[], rfl⟩
  | c :: cs, dp, h => by
    simp only [processSecKids]
    refine seqE_ok _ _ ?_ (processSecKids_ok cs dp (fun x hx => h x (by simp [hx])))
    by_cases ht : c.tag = "t"
    · simp only [if_pos ht]
      cases c with
      | elem tg a tx tl kids =>
        exact tIndentText_ok _ (allIndentsOk_node tg a tx tl kids (h _ (by simp))).1
    · simp only [if_neg ht]
      by_cases hs : c.tag = "section"
      · simp only [if_pos hs]
        exact processSection_ok c (h c (by simp)) dp
      · simp only [if_neg hs]
        exact ⟨_, rfl⟩

end

theorem middleSections_ok :
    ∀ (cs : List Xml), (∀ c ∈ cs, allIndentsOk c = true) →
      ∃ ls, middleSections cs = .ok ls := by
  intro cs
  induction cs with
  | nil => exact fun _ => ⟨[], rfl⟩
  | cons c cs ih =>
    intro h
    simp only [middleSections]
    by_cases hs : c.tag = "section"
    · simp only [if_pos hs]
      exact seqE_ok _ _ (processSection_ok c (h c (by simp)) 1)
        (ih (fun x hx => h x (by simp [hx])))
    · simp only [if_neg hs]
      exact ih (fun x hx => h x (by simp [hx]))

theorem processMiddle_ok (root : Xml) (h : allIndentsOk root = true) :
    ∃ ls, processMiddle root = .ok ls := by
  unfold processMiddle
  cases hm : root.findChild "middle" with
  | none => exact ⟨[], rfl⟩
  | some mid =>
    exact middleSections_ok mid.children
      (allIndentsOk_child mid (allIndentsOk_child root h mid (findChild_mem _ _ _ hm)))

theorem backSections_ok :
    ∀ (cs : List Xml), (∀ c ∈ cs, allIndentsOk c = true) →
      ∃ ls, backSections cs = .ok ls := by
  intro cs
  induction cs with
  | nil => exact fun _ => ⟨[], rfl⟩
  | cons c cs ih =>
    intro h
    simp only [backSections]
    by_cases hs : c.tag = "section"
    · simp only [if_pos hs]
      refine seqE_ok _ _ ?_ (ih (fun x hx => h x (by simp [hx])))
      by_cases hu : c.getAttr "numbered" "true" = "false"
          ∨ c.getAttr "anchor" "" ∈ ["Acknowledgements", "acknowledgements",
              "Contributors", "contributors", "authors-addresses"]
      · simp only [if_pos hu]
        exact ⟨_, rfl⟩
      · simp only [if_neg hu]
        exact processSection_ok c (h c (by simp)) 1
    · simp only [if_neg hs]
      exact ih (fun x hx => h x (by simp [hx]))

theorem processBack_ok (root : Xml) (h : allIndentsOk root = true) :
    ∃ ls, processBack root = .ok ls := by
  cases hb : root.findChild "back" with
  | none => exact ⟨[], by simp [processBack, hb]⟩
  | some bk =>
    obtain ⟨ls, hls⟩ := backSections_ok bk.children
      (allIndentsOk_child bk (allIndentsOk_child root h bk (findChild_mem _ _ _ hb)))
    apply exists_of_exceptIsOk
    simp only [processBack, hb, hls, Except.map, exceptIsOk]

theorem processFront_ok (root : Xml) (h : allIndentsOk root = true) :
    ∃ ls, processFront root = .ok ls := by
  cases hf : root.findChild "front" with
  | none => exact ⟨[], by simp [processFront, hf]⟩
  | some front =>
    have hfront := allIndentsOk_child root h front (findChild_mem _ _ _ hf)
    cases hab : front.findChild "abstract" with
    | none =>
      apply exists_of_exceptIsOk
      simp only [processFront, hf, hab, Except.map, exceptIsOk]
    | some ab =>
      obtain ⟨ls, hls⟩ := abstractTs_ok ab.children
        (allIndentsOk_child ab (allIndentsOk_child front hfront ab (findChild_mem _ _ _ hab)))
      apply exists_of_exceptIsOk
      simp only [processFront, hf, hab, hls, Except.map, exceptIsOk]

/-- A well-formed XML document (it parses) whose abstract paragraph carries a
non-integer `indent` attribute. -/
def badIndentDoc : Xml :=
  Xml.elem "rfc" [] none none
    [Xml.elem "front" [] none none
      [Xml.elem "abstract" [] none none
        [Xml.elem "t" [("indent", "x")] (some "hi") none []]]]

/-- C1 (counterexample): the initial parse is **not** the only fatal
condition — a document that parses fine but has `indent="x"` on an abstract
paragraph makes `convert()` raise `ValueError` from `int(indent)`, deep in
front-matter processing. -/
theorem C1_counterexample :
    xmlConvert (some badIndentDoc)
      = .error (.valueError "invalid literal for int() with base 10: x") := by rfl

/-- C1 (amended): `convert()` either returns a complete Markdown string or
raises; besides the initial parse failure, the only other fatal condition is
a `t` element whose `indent` attribute is neither `"0"` nor a valid integer
literal.  For documents whose `indent` attributes are all well formed, the
XML converter always returns a string — every other anomaly (missing optional
elements, absent TOC, unresolvable cross-reference targets, elements with no
text) is skipped silently — and the HTML converter never raises after a
successful parse. -/
theorem C1_error_behaviour (root : Xml) (h : allIndentsOk root = true) :
    (∃ s, xmlConvert (some root) = .ok s)
    ∧ (∀ d : HtmlDoc, ∃ s, htmlConvert (some d) = .ok s) := by
  constructor
  · obtain ⟨f, hf⟩ := processFront_ok root h
    obtain ⟨mid, hm⟩ := processMiddle_ok root h
    obtain ⟨bk, hb⟩ := processBack_ok root h
    apply exists_of_exceptIsOk
    simp only [xmlConvert, convertCall, hf, hm, hb, Except.map, exceptIsOk]
  · intro d
    exact ⟨_, rfl⟩

theorem C1_error_behaviour_witness :
    ∃ s, xmlConvert (some (Xml.elem "rfc" [] none none [])) = .ok s :=
  (C1_error_behaviour (Xml.elem "rfc" [] none none []) (by decide)).1

/-! ### Claim C3: purity of `convert()` across calls -/

def c3doc : Xml := Xml.elem "rfc" [] none none []

/-- C3 (counterexample): `convert()` is not a pure function of the document —
`markdown_lines` survives the call, so a second `convert()` on the same
instance returns a different (doubled) string. -/
theorem C3_counterexample :
    (match convertCall initConvState (some c3doc) with
     | .ok (st1, _) =>
       match convertCall st1 (some c3doc) with
       | .ok (_, o2) => some o2
       | .error _ => none
     | .error _ => none)
      = some "## Table of Contents\n\n## Table of Contents\n"
    ∧ (match convertCall initConvState (some c3doc) with
       | .ok (_, o1) => some o1
       | .error _ => none)
      = some "## Table of Contents\n"
    ∧ ("## Table of Contents\n\n## Table of Contents\n" : String)
        ≠ "## Table of Contents\n" :=
  ⟨rfl, rfl, by decide⟩

/-- C3 (amended): the output line buffer survives a `convert()` call: a first
successful call returns the newline-join of the buffer it leaves behind, and a
second call on the same instance re-appends the same lines, returning the
first buffer twice over (`o2 = "\n".join(lines₁ ++ lines₁)`) rather than the
same string. -/
theorem C3_second_call_doubles (root : Xml) (st1 : ConvState) (o1 : String)
    (h : convertCall initConvState (some root) = .ok (st1, o1)) :
    o1 = joinNlStr st1.lines
    ∧ (convertCall st1 (some root)).map (fun r => (r.1.lines, r.2))
        = .ok (st1.lines ++ st1.lines, joinNlStr (st1.lines ++ st1.lines)) := by
  cases hf : processFront root with
  | error e =>
    simp only [convertCall, hf] at h
    exact absurd h (by simp)
  | ok f =>
    cases hm : processMiddle root with
    | error e =>
      simp only [convertCall, hf, hm] at h
      exact absurd h (by simp)
    | ok mid =>
      cases hb : processBack root with
      | error e =>
        simp only [convertCall, hf, hm, hb] at h
        exact absurd h (by simp)
      | ok bk =>
        simp only [convertCall, hf, hm, hb] at h
        rw [Except.ok.injEq, Prod.mk.injEq] at h
        obtain ⟨h1, h2⟩ := h
        subst h1
        subst h2
        refine ⟨rfl, ?_⟩
        simp only [convertCall, hf, hm, hb, Except.map, initConvState]
        rw [buildAnchorMap_idem]
        simp [List.append_assoc]

theorem C3_second_call_doubles_witness :
    ("## Table of Contents\n" : String)
      = joinNlStr (["## Table of Contents", ""] : List String)
    ∧ (convertCall ⟨["## Table of Contents", ""],
          buildAnchorMap emptyDict c3doc, []⟩ (some c3doc)).map (fun r => (r.1.lines, r.2))
        = .ok (["## Table of Contents", ""] ++ ["## Table of Contents", ""],
            joinNlStr ((["## Table of Contents", ""] : List String)
              ++ ["## Table of Contents", ""])) :=
  C3_second_call_doubles c3doc
    ⟨["## Table of Contents", ""], buildAnchorMap emptyDict c3doc, []⟩
    "## Table of Contents\n" (by rfl)

/-! ### Claim C6: anchor map population and TOC linking -/

/-- C6: the identifier→anchor map is fully populated before any TOC line is
generated — (i) every `(pn, anchor)` pair collected from any section of
`middle`/`back` at any depth is present in the built map, (ii) a target
absent from the map falls back to the raw identifier with no error,
(iii) `convert` emits the TOC computed from the completely built map, and
(iv) every two-`xref` TOC entry links to `map.get(target, target)`. -/
theorem C6_anchor_map_before_toc (root : Xml) (pn anchor tgt : String)
    (hmem : (pn, anchor) ∈ docSectionPairs root)
    (habsent : tgt ∉ (docSectionPairs root).map Prod.fst) :
    (∃ a, buildAnchorMap emptyDict root pn = some a ∧ (pn, a) ∈ docSectionPairs root)
    ∧ (buildAnchorMap emptyDict root tgt).getD tgt = tgt
    ∧ (∀ ls, convertLines root = .ok ls →
        ∃ f mid bk,
          ls = f ++ generateToc root (buildAnchorMap emptyDict root) [] ++ (mid ++ bk)
          ∧ processFront root = .ok f ∧ processMiddle root = .ok mid
          ∧ processBack root = .ok bk)
    ∧ (∀ (m : String → Option String) (d : Nat) (liKids : List Xml) (te x1 x2 : Xml)
          (xs : List Xml),
        liKids.find? (fun c => c.tag = "t") = some te →
        te.findAll "xref" = x1 :: x2 :: xs →
        x1.getAttr "derivedContent" "" ≠ "" →
        pyOrS (x2.getAttr "derivedContent" "") (x2.textOpt.getD "") ≠ "" →
        tocLiEntry m d liKids
          = [strRepeatN "  " d ++ "- [" ++ x1.getAttr "derivedContent" "" ++ ". "
              ++ pyOrS (x2.getAttr "derivedContent" "") (x2.textOpt.getD "")
              ++ "](#" ++ (m (x1.getAttr "target" "")).getD (x1.getAttr "target" "")
              ++ ")"]) := by
  refine ⟨?_, ?_, ?_, ?_⟩
  · rw [buildAnchorMap_eq]
    exact insertAll_covers _ emptyDict pn anchor hmem
  · rw [buildAnchorMap_eq, insertAll_lookup, lastAssoc_not_mem _ _ habsent]
    rfl
  · intro ls h
    simp only [convertLines, convertCall] at h
    cases hf : processFront root with
    | error e => rw [hf] at h; simp [Except.map] at h
    | ok f =>
      rw [hf] at h
      cases hm : processMiddle root with
      | error e => rw [hm] at h; simp [Except.map] at h
      | ok mid =>
        rw [hm] at h
        cases hb : processBack root with
        | error e => rw [hb] at h; simp [Except.map] at h
        | ok bk =>
          rw [hb] at h
          simp only [Except.map] at h
          injection h with h
          refine ⟨f, mid, bk, ?_, rfl, rfl, rfl⟩
          obtain ⟨rest, hg⟩ :=
            generateToc_head root (buildAnchorMap initConvState.anchors root)
              initConvState.tocEntries
          rw [← h]
          have hne : generateToc root (buildAnchorMap initConvState.anchors root)
              initConvState.tocEntries ≠ [] := by rw [hg]; simp
          rw [if_pos hne]
          simp [initConvState, List.append_assoc]
  · intro m d liKids te x1 x2 xs hfind hxrefs hnum htitle
    unfold tocLiEntry
    rw [hfind]
    simp only [hxrefs, if_pos (And.intro hnum htitle)]

def c6doc : Xml :=
  Xml.elem "rfc" [] none none
    [Xml.elem "middle" [] none none
      [Xml.elem "section" [("pn", "s-1"), ("anchor", "intro")] none none
        [Xml.elem "section" [("pn", "s-1.1"), ("anchor", "sub")] none none []]]]

theorem C6_anchor_map_before_toc_witness :
    (∃ a, buildAnchorMap emptyDict c6doc "s-1.1" = some a
      ∧ ("s-1.1", a) ∈ docSectionPairs c6doc)
    ∧ (buildAnchorMap emptyDict c6doc "zzz").getD "zzz" = "zzz" :=
  ⟨(C6_anchor_map_before_toc c6doc "s-1.1" "sub" "zzz" (by decide) (by decide)).1,
   (C6_anchor_map_before_toc c6doc "s-1.1" "sub" "zzz" (by decide) (by decide)).2.1⟩
